import Mathlib

/-!
Verification development for the Pinterest-downloader repository.

The Python sources under app/ are shallowly embedded here:
Python strings are modelled as lists of characters (Chars), machine
integers as Int/Nat, fallible code as Option/Except, and network
traffic as explicit world records supplied to the embedded functions.
Regular expressions from the source are embedded as dedicated total
scanners; each scanner's doc comment quotes the pattern it models.
-/

deriving instance DecidableEq for Except

namespace PinSpec

/-- Python strings are modelled as lists of characters. -/
abbrev Chars := List Char

/-- The character set Python str.strip() removes by default
(ASCII whitespace; the inputs in this development are ASCII). -/
def isPySpace (c : Char) : Bool :=
  c = ' ' ∨ c = '\t' ∨ c = '\n' ∨ c = '\x0d' ∨ c = '\x0b' ∨ c = '\x0c'

/-- Python str.lower() (ASCII approximation). -/
def lowerChars (l : Chars) : Chars := l.map Char.toLower

/-- Python "pat in s" substring test. -/
def containsSub (pat : Chars) : Chars → Bool
  | [] => pat.isEmpty
  | c :: rest => pat.isPrefixOf (c :: rest) || containsSub pat rest

/-- Left strip of every character satisfying p. -/
def lstripBy (p : Char → Bool) (l : Chars) : Chars := l.dropWhile p

/-- Right strip of every character satisfying p. -/
def rstripBy (p : Char → Bool) (l : Chars) : Chars := (l.reverse.dropWhile p).reverse

/-- Python str.strip() with no argument. -/
def pyStrip (l : Chars) : Chars := rstripBy isPySpace (lstripBy isPySpace l)

/-- Python str.strip(chars) for an explicit character set. -/
def pyStripSet (set : Chars) (l : Chars) : Chars :=
  rstripBy (set.contains ·) (lstripBy (set.contains ·) l)

/-- Python str.rstrip(chars). -/
def pyRstripSet (set : Chars) (l : Chars) : Chars := rstripBy (set.contains ·) l

/-- Split at the first occurrence of c: returns the part before it and,
when c occurs, the part after it. -/
def splitOnFirst (c : Char) : Chars → Chars × Option Chars
  | [] => ([], none)
  | x :: xs =>
    if x = c then ([], some xs)
    else
      let r := splitOnFirst c xs
      (x :: r.1, r.2)

/-- Python str.split(sep) for a one-character separator (full split). -/
def splitAll (c : Char) : Chars → List Chars
  | [] => [[]]
  | x :: xs =>
    match splitAll c xs with
    | [] => [[]]
    | h :: t => if x = c then [] :: h :: t else (x :: h) :: t

/-- Digit run to a natural number (Python int() on an all-digit string). -/
def digitsToNat (l : Chars) : Nat :=
  l.foldl (fun a c => a * 10 + (c.toNat - '0'.toNat)) 0

/-- Worker for replaceSub, structurally recursive on fuel. -/
def replaceSubGo (pat rep : Chars) : Nat → Chars → Chars
  | _, [] => []
  | 0, l => l
  | fuel + 1, x :: xs =>
    if pat.isPrefixOf (x :: xs) then
      rep ++ replaceSubGo pat rep fuel (List.drop pat.length (x :: xs))
    else
      x :: replaceSubGo pat rep fuel xs

/-- Python str.replace(pat, rep) for a nonempty pattern: leftmost,
non-overlapping occurrences. -/
def replaceSub (pat rep l : Chars) : Chars := replaceSubGo pat rep l.length l

/-- Index of the first occurrence of pat in l, if any. -/
def findSubIdx (pat : Chars) : Chars → Option Nat
  | [] => if pat = [] then some 0 else none
  | c :: rest =>
    if pat.isPrefixOf (c :: rest) then some 0
    else (findSubIdx pat rest).map (· + 1)

/-! ## HTML entity decoding

Models Python html.unescape.  CPython returns the input unchanged when it
contains no ampersand; the decoding branch below covers the named and
numeric entities that occur in this code base (the full html5 table is
much larger, but no claim input exercises it). -/

def entityTable : List (Chars × Char) :=
  [("amp;".data, '&'), ("lt;".data, '<'), ("gt;".data, '>'),
   ("quot;".data, '"'), ("apos;".data, '\''), ("#39;".data, '\''),
   ("#47;".data, '/'), ("#x2F;".data, '/'), ("#x2f;".data, '/')]

/-- One decoding step at an ampersand: the matched entity and the rest. -/
def matchEntity (l : Chars) : Option (Char × Chars) :=
  (entityTable.find? (fun e => e.1.isPrefixOf l)).map
    (fun e => (e.2, l.drop e.1.length))

def htmlUnescapeGo : Nat → Chars → Chars
  | _, [] => []
  | 0, l => l
  | fuel + 1, c :: rest =>
    if c = '&' then
      match matchEntity rest with
      | some (d, rest') => d :: htmlUnescapeGo fuel rest'
      | none => c :: htmlUnescapeGo fuel rest
    else c :: htmlUnescapeGo fuel rest

/-- Python html.unescape (see the section comment above). -/
def htmlUnescape (l : Chars) : Chars :=
  if l.contains '&' then htmlUnescapeGo l.length l else l

/-! ## urllib.parse model

Faithful embedding of CPython urlsplit/urlparse/urlunsplit/urlunparse/urljoin
for the subset of behaviour the repository exercises. -/

structure UrlParts where
  scheme : Chars
  netloc : Chars
  path : Chars
  params : Chars
  query : Chars
  fragment : Chars
deriving DecidableEq, Repr

/-- Valid characters of a URL scheme after the first (letters, digits, +-.). -/
def isSchemeChar (c : Char) : Bool :=
  c.isAlpha ∨ c.isDigit ∨ c = '+' ∨ c = '-' ∨ c = '.'

/-- CPython scheme detection: the prefix before the first colon is taken as
the (lowercased) scheme when it starts with a letter and uses scheme
characters only; otherwise the URL is left whole. -/
def splitScheme (l : Chars) : Chars × Chars :=
  match splitOnFirst ':' l with
  | (pre, some rest) =>
    match pre with
    | [] => ([], l)
    | c :: cs =>
      if c.isAlpha ∧ cs.all isSchemeChar then (lowerChars (c :: cs), rest)
      else ([], l)
  | (_, none) => ([], l)

/-- CPython netloc split: after a leading //, the netloc runs up to the
first of / ? #. -/
def splitNetloc (l : Chars) : Chars × Chars :=
  if l.take 2 = ['/', '/'] then
    let rest := l.drop 2
    (rest.takeWhile (fun c => ¬(c = '/' ∨ c = '?' ∨ c = '#')),
     rest.dropWhile (fun c => ¬(c = '/' ∨ c = '?' ∨ c = '#')))
  else ([], l)

/-- CPython urlsplit raises ValueError("Invalid IPv6 URL") when the netloc
it is about to return contains one square bracket without the other.  The
pure model below does not carry that exception, so it is faithful only on
inputs where this predicate is false; theorems about code that calls
urlparse or urljoin without a try block exclude the raising inputs by
hypothesis. -/
def invalidIpv6Url (l : Chars) : Bool :=
  let netloc := (splitNetloc (splitScheme l).2).1
  (netloc.contains '[' && !(netloc.contains ']')) ||
  (netloc.contains ']' && !(netloc.contains '['))

/-- Split off the fragment at the first hash sign. -/
def splitHash (l : Chars) : Chars × Chars :=
  match splitOnFirst '#' l with
  | (a, some b) => (a, b)
  | (a, none) => (a, [])

/-- Split off the query at the first question mark. -/
def splitQuery (l : Chars) : Chars × Chars :=
  match splitOnFirst '?' l with
  | (a, some b) => (a, b)
  | (a, none) => (a, [])

/-- CPython _splitparams: parameters after a semicolon in the last path
segment. -/
def splitParamsPy (p : Chars) : Chars × Chars :=
  if p.contains '/' then
    let tailSeg := (p.reverse.takeWhile (fun c => ¬ c = '/')).reverse
    match splitOnFirst ';' tailSeg with
    | (a, some b) => (p.take (p.length - tailSeg.length) ++ a, b)
    | (_, none) => (p, [])
  else
    match splitOnFirst ';' p with
    | (a, some b) => (a, b)
    | (_, none) => (p, [])

/-- CPython urlsplit with a default scheme (order: scheme, netloc,
fragment, query). -/
def urlsplitD (dscheme l : Chars) : UrlParts :=
  let (scheme, rest) := splitScheme l
  let scheme := if scheme = [] then dscheme else scheme
  let (netloc, rest) := splitNetloc rest
  let (rest, fragment) := splitHash rest
  let (path, query) := splitQuery rest
  { scheme := scheme, netloc := netloc, path := path,
    params := [], query := query, fragment := fragment }

/-- CPython urlparse with a default scheme: urlsplit plus the params split. -/
def urlparseD (dscheme l : Chars) : UrlParts :=
  let u := urlsplitD dscheme l
  let (path, params) := splitParamsPy u.path
  { u with path := path, params := params }

/-- urllib.parse.urlparse. -/
def urlparse (l : Chars) : UrlParts := urlparseD [] l

/-- CPython urlunsplit. -/
def urlunsplit (scheme netloc path query fragment : Chars) : Chars :=
  let url := path
  let url :=
    if ¬ netloc = [] ∨ url.take 2 = ['/', '/'] then
      '/' :: '/' :: netloc ++ (if ¬ url = [] ∧ ¬ url.take 1 = ['/'] then '/' :: url else url)
    else url
  let url := if ¬ scheme = [] then scheme ++ ':' :: url else url
  let url := if ¬ query = [] then url ++ '?' :: query else url
  if ¬ fragment = [] then url ++ '#' :: fragment else url

/-- CPython urlunparse; also ParseResult.geturl(). -/
def urlunparse (u : UrlParts) : Chars :=
  let path := if ¬ u.params = [] then u.path ++ ';' :: u.params else u.path
  urlunsplit u.scheme u.netloc path u.query u.fragment

/-- Schemes of urllib.parse.uses_relative (the part this repo can meet). -/
def usesRelative : List Chars :=
  [[], "ftp".data, "http".data, "gopher".data, "nntp".data, "imap".data,
   "wais".data, "file".data, "https".data, "shttp".data, "mms".data,
   "prospero".data, "rtsp".data, "rtspu".data, "sftp".data, "svn".data,
   "svn+ssh".data, "ws".data, "wss".data]

/-- Schemes of urllib.parse.uses_netloc (the part this repo can meet). -/
def usesNetloc : List Chars :=
  [[], "ftp".data, "http".data, "gopher".data, "nntp".data, "telnet".data,
   "imap".data, "wais".data, "file".data, "mms".data, "https".data,
   "shttp".data, "snews".data, "prospero".data, "rtsp".data, "rtspu".data,
   "rsync".data, "svn".data, "svn+ssh".data, "sftp".data, "nfs".data,
   "git".data, "git+ssh".data, "ws".data, "wss".data, "itms-services".data]

/-- Segment resolution loop of CPython urljoin (the .. and . handling). -/
def resolveSegments : List Chars → List Chars → List Chars
  | acc, [] => acc
  | acc, seg :: rest =>
    if seg = "..".data then resolveSegments acc.dropLast rest
    else if seg = ".".data then resolveSegments acc rest
    else resolveSegments (acc ++ [seg]) rest

/-- CPython urljoin. -/
def urljoin (base url : Chars) : Chars :=
  if base = [] then url
  else if url = [] then base
  else
    let b := urlparseD [] base
    let u := urlparseD b.scheme url
    if ¬ u.scheme = b.scheme ∨ ¬ usesRelative.contains u.scheme then url
    else
      let netloc := if usesNetloc.contains u.scheme then
          (if ¬ u.netloc = [] then u.netloc else b.netloc) else u.netloc
      if usesNetloc.contains u.scheme ∧ ¬ u.netloc = [] then urlunparse u
      else if u.path = [] ∧ u.params = [] then
        let q := if u.query = [] then b.query else u.query
        urlunparse { u with netloc := netloc, path := b.path, params := b.params, query := q }
      else
        let baseParts := splitAll '/' b.path
        let baseParts := if baseParts.getLast? ≠ some [] then baseParts.dropLast else baseParts
        let segments :=
          if u.path.take 1 = ['/'] then splitAll '/' u.path
          else
            let s := baseParts ++ splitAll '/' u.path
            match s with
            | [] => []
            | h :: t =>
              match t.reverse with
              | [] => [h]
              | last :: midRev => h :: (midRev.reverse.filter (· ≠ [])) ++ [last]
        let resolved := resolveSegments [] segments
        let resolved :=
          if segments.getLast? = some ".".data ∨ segments.getLast? = some "..".data then
            resolved ++ [[]]
          else resolved
        let joined := List.intercalate ['/'] resolved
        let joined := if joined = [] then ['/'] else joined
        urlunparse { u with netloc := netloc, path := joined }

/-! ## app/utils/validation.py -/

/-- normalize_url: trim, and prepend https:// when no :// is present. -/
def normalizeUrl (rawUrl : Chars) : Chars :=
  let url := pyStrip rawUrl
  if url = [] then []
  else if ¬ containsSub "://".data url then "https://".data ++ url
  else url

/-- is_valid_http_url: scheme is http or https and a netloc is present. -/
def isValidHttpUrl (url : Chars) : Bool :=
  let parsed := urlparse url
  (parsed.scheme = "http".data ∨ parsed.scheme = "https".data) ∧ ¬ parsed.netloc = []

/-! ## app/utils/pinterest_urls.py -/

/-- RESERVED_PROFILE_SEGMENTS. -/
def reservedProfileSegments : List Chars :=
  [[], "pin".data, "pins".data, "search".data, "ideas".data, "explore".data,
   "discover".data, "categories".data, "business".data, "about".data,
   "help".data, "privacy".data, "settings".data, "login".data, "signup".data,
   "create".data, "shop".data, "_".data]

/-- Does l consist of the literal text pinterest. followed by one or more
characters from the class of lowercase letters and dots, to the end? -/
def pinterestHostTail (l : Chars) : Bool :=
  "pinterest.".data.isPrefixOf l ∧
  ¬ l.drop 10 = [] ∧ (l.drop 10).all (fun c => c.isLower ∨ c = '.')

/-- Scan for a dot followed by the pinterest tail. -/
def pinterestDotAnchored : Chars → Bool
  | [] => false
  | c :: rest => (c = '.' ∧ pinterestHostTail rest) || pinterestDotAnchored rest

/-- PINTEREST_HOST_RE search: the regex (?:^|\.)pinterest\.[a-z.]+$ matches
somewhere in the host. -/
def pinterestHostSearch (l : Chars) : Bool :=
  pinterestHostTail l || pinterestDotAnchored l

/-- PIN_SHORT_HOSTS. -/
def pinShortHosts : List Chars := ["pin.it".data]

/-- is_pinterest_host. -/
def isPinterestHost (host : Chars) : Bool :=
  let hostValue := pyStrip (lowerChars host)
  if hostValue = [] then false
  else if pinShortHosts.contains hostValue then true
  else pinterestHostSearch hostValue

/-- PIN_PATH_RE full match (case already folded by the caller):
the regex is ^/pin/\d+/?$ with IGNORECASE. -/
def pinPathMatch (p : Chars) : Bool :=
  "/pin/".data.isPrefixOf p ∧
  (let rest := p.drop 5
   let ds := rest.takeWhile Char.isDigit
   ¬ ds = [] ∧ (rest.drop ds.length = [] ∨ rest.drop ds.length = ['/']))

/-- is_pin_url. -/
def isPinUrl (url : Chars) : Bool :=
  let parsed := urlparse url
  let host := lowerChars parsed.netloc
  if pinShortHosts.contains host then true
  else if ¬ isPinterestHost host then false
  else pinPathMatch (lowerChars parsed.path)

/-- Nonempty path segments, as used throughout the sources:
[segment for segment in path.split("/") if segment]. -/
def pathSegments (p : Chars) : List Chars :=
  (splitAll '/' p).filter (fun s => ¬ s = [])

/-- extract_profile_username. -/
def extractProfileUsername (url : Chars) : Option Chars :=
  let parsed := urlparse url
  let host := lowerChars parsed.netloc
  if ¬ isPinterestHost host then none
  else if pinShortHosts.contains host then none
  else
    match pathSegments parsed.path with
    | [] => none
    | seg :: _ =>
      let username := lowerChars (pyStrip seg)
      if reservedProfileSegments.contains username then none
      else if username.take 1 = ['_'] then none
      else some username

/-- is_profile_url. -/
def isProfileUrl (url : Chars) : Bool :=
  if isPinUrl url then false else (extractProfileUsername url).isSome

/-- canonical_profile_url. -/
def canonicalProfileUrl (username : Chars) : Chars :=
  "https://www.pinterest.com/".data ++ username ++ ['/']

/-- canonical_pin_url. -/
def canonicalPinUrl (pinId : Chars) : Chars :=
  "https://www.pinterest.com/pin/".data ++ pinId ++ ['/']

/-! ## app/utils/media.py -/

def imageExtensions : List Chars :=
  [".jpg".data, ".jpeg".data, ".png".data, ".webp".data, ".gif".data,
   ".bmp".data, ".tif".data, ".tiff".data, ".avif".data]

def videoExtensions : List Chars :=
  [".mp4".data, ".mov".data, ".webm".data, ".m4v".data, ".avi".data,
   ".mkv".data, ".3gp".data]

def nonMediaExtensions : List Chars :=
  [".woff".data, ".woff2".data, ".ttf".data, ".otf".data, ".eot".data,
   ".css".data, ".js".data]

/-- pathlib name of a POSIX path: the last component, with . entries
dropped and trailing slashes ignored. -/
def pathlibName (p : Chars) : Chars :=
  match (pathSegments p).filter (fun s => ¬ s = ".".data) |>.getLast? with
  | some n => n
  | none => []

/-- pathlib suffix: from the last dot of the name, provided that dot is
neither the first nor the last character. -/
def pathlibSuffix (p : Chars) : Chars :=
  let name := pathlibName p
  if name.contains '.' then
    let after := (name.reverse.takeWhile (fun c => ¬ c = '.')).reverse
    if ¬ after = [] ∧ name.length - after.length - 1 > 0 then '.' :: after
    else []
  else []

/-- SIZE_SEGMENT_RE full match: ^\d+x\d*$ . -/
def sizeSegMatch (s : Chars) : Bool :=
  let ds := s.takeWhile Char.isDigit
  ¬ ds = [] ∧ (s.drop ds.length).take 1 = ['x'] ∧
    ((s.drop ds.length).drop 1).all Char.isDigit

/-- infer_media_type_from_url; the returned tag is the Python string
"image" or "video". -/
def inferMediaTypeFromUrl (url : Chars) : Option String :=
  let parsed := urlparse url
  let path := lowerChars parsed.path
  let suffix := lowerChars (pathlibSuffix path)
  if nonMediaExtensions.contains suffix then none
  else if imageExtensions.contains suffix then some "image"
  else if videoExtensions.contains suffix ∨ containsSub "/videos/".data path then some "video"
  else if containsSub "pinimg.com".data (lowerChars parsed.netloc) then
    match pathSegments path with
    | [] => none
    | firstSegment :: _ =>
      if firstSegment = "originals".data ∨ sizeSegMatch firstSegment then some "image"
      else if "x_rs".data.isSuffixOf firstSegment ∧ imageExtensions.contains suffix then
        some "image"
      else none
  else none

/-! ## app/services/pinterest_resolver.py: pure candidate machinery -/

/-- MediaCandidate; media_type and source keep their Python string values. -/
structure MediaCandidate where
  url : Chars
  media_type : String
  quality_score : Int
  source : String := ""
deriving DecidableEq, Repr

/-- The deduplication key (media_type, url). -/
def candKey (c : MediaCandidate) : String × Chars := (c.media_type, c.url)

/-- PINTEREST_IMAGE_HOST. -/
def pinterestImageHost : Chars := "i.pinimg.com".data

/-- _is_pinimg_host. -/
def isPinimgHost (host : Chars) : Bool :=
  let hostValue := lowerChars host
  hostValue = pinterestImageHost ∨ ".pinimg.com".data.isSuffixOf hostValue

/-- _is_placeholder_image. -/
def isPlaceholderImage (url : Chars) : Bool :=
  let path := lowerChars (urlparse url).path
  if containsSub "facebook_share_image".data path then true
  else if containsSub "/images/".data path ∧ ¬ containsSub "/originals/".data path then true
  else false

/-- Worker for _dedupe_url_list with an explicit seen set. -/
def dedupeUrlListGo (seen : List Chars) : List Chars → List Chars
  | [] => []
  | v :: rest =>
    if seen.contains v then dedupeUrlListGo seen rest
    else v :: dedupeUrlListGo (v :: seen) rest

/-- _dedupe_url_list. -/
def dedupeUrlList (values : List Chars) : List Chars := dedupeUrlListGo [] values

/-- _pinimg_variants. -/
def pinimgVariants (url : Chars) : List Chars :=
  let parsed := urlparse url
  if ¬ isPinimgHost parsed.netloc then [url]
  else
    match pathSegments parsed.path with
    | [] => [url]
    | firstSegment :: restSegments =>
      let variants :=
        if ¬ firstSegment = "originals".data ∧ sizeSegMatch firstSegment then
          let rebuiltPath := '/' :: List.intercalate ['/'] ("originals".data :: restSegments)
          [urlunparse { parsed with path := rebuiltPath }, url]
        else [url]
      dedupeUrlList variants

/-- The width-plus-height bonus of _score_image for a first path segment
of the form a width, the letter x, and an optional height. -/
def imageSizeBonus (path : Chars) : Int :=
  match pathSegments path with
  | [] => 0
  | seg :: _ =>
    if sizeSegMatch seg then
      let widthText := (splitOnFirst 'x' seg).1
      let heightText := ((splitOnFirst 'x' seg).2).getD []
      let width : Int := if ¬ widthText = [] ∧ widthText.all Char.isDigit then digitsToNat widthText else 0
      let height : Int := if ¬ heightText = [] ∧ heightText.all Char.isDigit then digitsToNat heightText else width
      width + height
    else 0

/-- _score_image. -/
def scoreImage (url sizeHint : Chars) : Int :=
  let path := lowerChars (urlparse url).path
  let score : Int := 1000
  let score := score +
    (if containsSub "/originals/".data path ∨ lowerChars sizeHint = "orig".data then 9000 else 0)
  let score := score + imageSizeBonus path
  let score := score -
    (if containsSub "75x75_rs".data path ∨ containsSub "facebook_share_image".data path then 6000 else 0)
  let score := score -
    (if containsSub "/images/".data path ∧ ¬ containsSub "/originals/".data path then 3000 else 0)
  score + (if isPinimgHost (urlparse url).netloc then 300 else 0)

/-- VIDEO_RESOLUTION_RE search: /(\d{3,4})p(?:/|$) ; returns the digit
group of the first match. -/
def videoResSearch : Chars → Option Nat
  | [] => none
  | c :: rest =>
    if c = '/' then
      let ds := rest.takeWhile Char.isDigit
      let after := rest.drop ds.length
      if (ds.length = 3 ∨ ds.length = 4) ∧ after.take 1 = ['p'] ∧
          (after.drop 1 = [] ∨ (after.drop 1).take 1 = ['/']) then
        some (digitsToNat ds)
      else videoResSearch rest
    else videoResSearch rest

/-- _score_video. -/
def scoreVideo (url sizeHint : Chars) : Int :=
  let path := lowerChars (urlparse url).path
  let score : Int := 20000
  let score := score + (match videoResSearch path with | some n => (n : Int) | none => 0)
  let score := score + (if ".mp4".data.isSuffixOf path then 500 else 0)
  let score := score - (if ".m3u8".data.isSuffixOf path then 300 else 0)
  let score := score - (if containsSub "hls".data path then 150 else 0)
  score +
    (if ¬ sizeHint = [] ∧ ['p'].isSuffixOf (lowerChars sizeHint) then
      let digits := sizeHint.filter Char.isDigit
      if ¬ digits = [] then (digitsToNat digits : Int) else 0
    else 0)

/-- _build_candidates. -/
def buildCandidates (url : Chars) (mediaType : String) (source : String)
    (sizeHint : Chars) : List MediaCandidate :=
  if mediaType = "image" then
    (pinimgVariants url).map (fun variant =>
      { url := variant, media_type := "image",
        quality_score := scoreImage variant sizeHint, source := source })
  else
    [{ url := url, media_type := "video",
       quality_score := scoreVideo url sizeHint, source := source }]

/-- One step of the by_key dictionary of _sort_and_dedupe: insert the
candidate, or replace the first entry with its key when the new score is
strictly greater. -/
def dictUpsert : List MediaCandidate → MediaCandidate → List MediaCandidate
  | [], c => [c]
  | e :: rest, c =>
    if candKey e = candKey c then
      (if c.quality_score > e.quality_score then c else e) :: rest
    else e :: dictUpsert rest c

/-- The descending-by-score order used by _sort_and_dedupe; Python list.sort
with reverse=True is a stable sort, which insertion sort realises. -/
def scoreGe (a b : MediaCandidate) : Prop := b.quality_score ≤ a.quality_score

instance : DecidableRel scoreGe := fun a b => by
  unfold scoreGe; infer_instance

instance : IsTotal MediaCandidate scoreGe :=
  ⟨fun a b => le_total b.quality_score a.quality_score⟩

instance : IsTrans MediaCandidate scoreGe :=
  ⟨fun _ _ _ ha hb => le_trans hb ha⟩

/-- _sort_and_dedupe. -/
def sortAndDedupe (candidates : List MediaCandidate) : List MediaCandidate :=
  List.insertionSort scoreGe (candidates.foldl dictUpsert [])

/-- ^https?:// followed by at least one character outside the disallowed
class; the class of NORMALIZED_URL_RE (and of HOSTED_MEDIA_PATTERN) is
[^\s"&apos;<>)\]\x7d]. -/
def normalizedUrlDisallowed (c : Char) : Bool :=
  isPySpace c ∨ c = '"' ∨ c = '\'' ∨ c = '<' ∨ c = '>' ∨ c = ')' ∨ c = ']' ∨ c = '\x7d'

/-- NORMALIZED_URL_RE match at the start (IGNORECASE): returns group(0). -/
def normalizedUrlMatch (l : Chars) : Option Chars :=
  if lowerChars (l.take 8) = "https://".data then
    let body := (l.drop 8).takeWhile (fun c => ¬ normalizedUrlDisallowed c)
    if body = [] then none else some (l.take 8 ++ body)
  else if lowerChars (l.take 7) = "http://".data then
    let body := (l.drop 7).takeWhile (fun c => ¬ normalizedUrlDisallowed c)
    if body = [] then none else some (l.take 7 ++ body)
  else none

/-- _normalize_candidate. -/
def normalizeCandidate (value baseUrl : Chars) : Option Chars :=
  let candidate := htmlUnescape (pyStrip value)
  if candidate = [] then none
  else
    let candidate := replaceSub "\\/".data "/".data candidate
    let candidate := replaceSub "\\u002F".data "/".data candidate
    let candidate := replaceSub "\\u0026".data "&".data candidate
    let candidate := replaceSub "&amp;".data "&".data candidate
    let candidate := pyStripSet "\"' ),".data candidate
    let candidate := if candidate.take 2 = "//".data then "https:".data ++ candidate else candidate
    let candidate := urljoin baseUrl candidate
    let candidate := pyRstripSet ".,;".data candidate
    match normalizedUrlMatch candidate with
    | none => none
    | some matched => if isValidHttpUrl matched then some matched else none

/-! ## JSON values

Decoded JSON payloads (what Python requests' response.json() or
json.loads returns).  Json.obj models a Python dict: keys are unique and
iteration order is insertion order, so association-list lookup of the
first occurrence coincides with dict lookup.  Numbers are restricted to
integers; no payload in this code base carries a fractional number. -/

inductive Json where
  | null
  | bool (b : Bool)
  | num (n : Int)
  | str (s : Chars)
  | arr (elems : List Json)
  | obj (fields : List (Chars × Json))
deriving Repr

/-- dict.get on an object's field list (first occurrence). -/
def jsonField (fields : List (Chars × Json)) (k : Chars) : Option Json :=
  (fields.find? (fun kv => kv.1 = k)).map (fun kv => kv.2)

/-- Python truthiness of a decoded JSON value (None, False, 0, empty
string, empty list and empty dict are falsy). -/
def jsonTruthy : Json → Bool
  | .null => false
  | .bool b => b
  | .num n => ¬ n = 0
  | .str s => ¬ s = []
  | .arr xs => ¬ xs.isEmpty
  | .obj fs => ¬ fs.isEmpty

/-! ## Regex scanners of pinterest_resolver.py -/

/-- PIN_ID_PATH_RE search: /pin/(\d+)/? (case-sensitive); returns the first
digit group. -/
def pinIdSearch : Chars → Option Chars
  | [] => none
  | c :: rest =>
    if c = '/' ∧ "pin/".data.isPrefixOf rest then
      let ds := (rest.drop 4).takeWhile Char.isDigit
      if ¬ ds = [] then some ds else pinIdSearch rest
    else pinIdSearch rest

/-- _extract_pin_id. -/
def extractPinId (text : Chars) : Option Chars := pinIdSearch text

/-- OEMBED_PIN_ID_RE search: [?&]id=(\d+) ; returns the first digit group. -/
def oembedIdSearch : Chars → Option Chars
  | [] => none
  | c :: rest =>
    if (c = '?' ∨ c = '&') ∧ "id=".data.isPrefixOf rest then
      let ds := (rest.drop 3).takeWhile Char.isDigit
      if ¬ ds = [] then some ds else oembedIdSearch rest
    else oembedIdSearch rest

/-! ## A small JSON text reader

Models Python json.loads for the payload shapes this repository handles:
objects, arrays, strings with the common escapes, integers, true, false,
null, with JSON whitespace.  Fractional and exponent numbers and \u
escapes are out of scope (no claim input uses them); such text is
rejected, which the callers treat like any other parse failure. -/

def jsonWs (l : Chars) : Chars :=
  l.dropWhile (fun c => c = ' ' ∨ c = '\t' ∨ c = '\n' ∨ c = '\x0d')

def parseJsonStringBody : Nat → Chars → Option (Chars × Chars)
  | _, [] => none
  | 0, _ => none
  | fuel + 1, c :: rest =>
    if c = '"' then some ([], rest)
    else if c = '\\' then
      match rest with
      | [] => none
      | e :: rest' =>
        let d? : Option Char :=
          if e = '"' then some '"'
          else if e = '\\' then some '\\'
          else if e = '/' then some '/'
          else if e = 'n' then some '\n'
          else if e = 't' then some '\t'
          else if e = 'r' then some '\x0d'
          else if e = 'b' then some '\x08'
          else if e = 'f' then some '\x0c'
          else none
        match d? with
        | none => none
        | some d => (parseJsonStringBody fuel rest').map (fun r => (d :: r.1, r.2))
    else (parseJsonStringBody fuel rest).map (fun r => (c :: r.1, r.2))

mutual

def parseJsonValue : Nat → Chars → Option (Json × Chars)
  | 0, _ => none
  | fuel + 1, l =>
    let l := jsonWs l
    match l with
    | [] => none
    | c :: rest =>
      if c = '"' then (parseJsonStringBody (fuel + 1) rest).map (fun r => (.str r.1, r.2))
      else if c = '\x7b' then parseJsonObjFields fuel rest true
      else if c = '[' then parseJsonArrElems fuel rest true
      else if c = 't' then
        if "rue".data.isPrefixOf rest then some (.bool true, rest.drop 3) else none
      else if c = 'f' then
        if "alse".data.isPrefixOf rest then some (.bool false, rest.drop 4) else none
      else if c = 'n' then
        if "ull".data.isPrefixOf rest then some (.null, rest.drop 3) else none
      else if c = '-' then
        let ds := rest.takeWhile Char.isDigit
        if ds = [] then none else some (.num (-(digitsToNat ds : Int)), rest.drop ds.length)
      else if c.isDigit then
        let ds := (c :: rest).takeWhile Char.isDigit
        if ds = [] then none else some (.num (digitsToNat ds : Int), (c :: rest).drop ds.length)
      else none

def parseJsonObjFields : Nat → Chars → Bool → Option (Json × Chars)
  | 0, _, _ => none
  | fuel + 1, l, isFirst =>
    let l' := jsonWs l
    match l' with
    | [] => none
    | c :: rest =>
      if c = '\x7d' ∧ isFirst then some (.obj [], rest)
      else
        match parseJsonValue fuel l' with
        | some (.str k, afterKey) =>
          match jsonWs afterKey with
          | ':' :: afterColon =>
            match parseJsonValue fuel afterColon with
            | some (v, afterVal) =>
              match jsonWs afterVal with
              | ',' :: afterComma =>
                match parseJsonObjFields fuel afterComma false with
                | some (.obj fs, rest') => some (.obj ((k, v) :: fs), rest')
                | _ => none
              | '\x7d' :: rest' => some (.obj [(k, v)], rest')
              | _ => none
            | _ => none
          | _ => none
        | _ => none

def parseJsonArrElems : Nat → Chars → Bool → Option (Json × Chars)
  | 0, _, _ => none
  | fuel + 1, l, isFirst =>
    let l' := jsonWs l
    match l' with
    | [] => none
    | c :: _ =>
      if c = ']' ∧ isFirst then some (.arr [], l'.drop 1)
      else
        match parseJsonValue fuel l' with
        | some (v, afterVal) =>
          match jsonWs afterVal with
          | ',' :: afterComma =>
            match parseJsonArrElems fuel afterComma false with
            | some (.arr xs, rest') => some (.arr (v :: xs), rest')
            | _ => none
          | ']' :: rest' => some (.arr [v], rest')
          | _ => none
        | _ => none

end

/-- json.loads (subset; see the section comment): the whole text must be
one JSON value up to trailing whitespace. -/
def parseJson (l : Chars) : Option Json :=
  match parseJsonValue (l.length + 1) l with
  | some (v, rest) => if jsonWs rest = [] then some v else none
  | none => none

/-! ## _extract_candidates_from_object

The recursive walk over an untyped JSON payload.  The Lean embedding
carries a fuel argument for totality; jsonWalkFuel bounds the recursion
depth plus width, far beyond any payload this development evaluates. -/

/-- Handling of one string leaf inside the walk. -/
def walkLeaf (baseUrl : Chars) (source : String) (hint? : Option String)
    (s keyHint : Chars) : List MediaCandidate :=
  if ¬ (containsSub "http".data s ∨ containsSub "\\/".data s) then []
  else
    match normalizeCandidate s baseUrl with
    | none => []
    | some normalized =>
      match inferMediaTypeFromUrl normalized with
      | none => []
      | some mediaType =>
        if (match hint? with | some h => decide (¬ mediaType = h) | none => false) then []
        else if mediaType = "image" ∧ isPlaceholderImage normalized then []
        else buildCandidates normalized mediaType source keyHint

mutual

def walkJson (baseUrl : Chars) (source : String) (hint? : Option String) :
    Nat → Json → Chars → List MediaCandidate
  | 0, _, _ => []
  | fuel + 1, .obj fs, _ => walkJsonFields baseUrl source hint? fuel fs
  | fuel + 1, .arr xs, keyHint => walkJsonElems baseUrl source hint? fuel xs keyHint
  | _ + 1, .str s, keyHint => walkLeaf baseUrl source hint? s keyHint
  | _ + 1, .null, _ => []
  | _ + 1, .bool _, _ => []
  | _ + 1, .num _, _ => []

def walkJsonFields (baseUrl : Chars) (source : String) (hint? : Option String) :
    Nat → List (Chars × Json) → List MediaCandidate
  | 0, _ => []
  | _ + 1, [] => []
  | fuel + 1, (k, v) :: rest =>
    walkJson baseUrl source hint? fuel v k ++ walkJsonFields baseUrl source hint? fuel rest

def walkJsonElems (baseUrl : Chars) (source : String) (hint? : Option String) :
    Nat → List Json → Chars → List MediaCandidate
  | 0, _, _ => []
  | _ + 1, [], _ => []
  | fuel + 1, v :: rest, keyHint =>
    walkJson baseUrl source hint? fuel v keyHint ++
      walkJsonElems baseUrl source hint? fuel rest keyHint

end

def jsonWalkFuel : Nat := 1000000

/-- _extract_candidates_from_object (the walk starts with an empty key
hint and the result is sorted and deduplicated). -/
def extractCandidatesFromObject (payload : Json) (baseUrl : Chars)
    (source : String) (hint? : Option String) : List MediaCandidate :=
  sortAndDedupe (walkJson baseUrl source hint? jsonWalkFuel payload [])

/-! ## _fetch_pin_api_candidates -/

/-- Outcome of a JSON HTTP call whose errors the caller catches:
fail covers requests.RequestException (including raise_for_status),
badJson a body that response.json() rejects. -/
inductive JsonFetch where
  | fail
  | badJson
  | json (j : Json)

/-- The images-dictionary loop of _fetch_pin_api_candidates. -/
def imagesCandidates (baseUrl : Chars) (images : Json) : List MediaCandidate :=
  match images with
  | .obj fs =>
    fs.flatMap (fun kv =>
      match kv.2 with
      | .obj detailFields =>
        match jsonField detailFields "url".data with
        | some (.str rawUrl) =>
          match normalizeCandidate rawUrl baseUrl with
          | some normalized =>
            if ¬ isPlaceholderImage normalized then
              buildCandidates normalized "image" "api-images" kv.1
            else []
          | none => []
        | _ => []
      | _ => [])
  | _ => []

/-- Candidate extraction from one pin_data dictionary (lines 171-223 of
_fetch_pin_api_candidates, after the payload checks).  A JSON null field
behaves like a missing one, exactly as Python's dict.get-then-None test. -/
def pinDataCandidates (pinId : Chars) (pinFields : List (Chars × Json)) : List MediaCandidate :=
  let baseUrl := "https://www.pinterest.com/pin/".data ++ pinId ++ ['/']
  let candidates :=
    (match jsonField pinFields "images".data with
     | some imgs => imagesCandidates baseUrl imgs
     | none => [])
  let candidates := candidates ++
    (match jsonField pinFields "videos".data with
     | some .null => []
     | some videos => extractCandidatesFromObject videos baseUrl "api-videos" (some "video")
     | none => [])
  let candidates := candidates ++
    (match jsonField pinFields "story_pin_data".data with
     | some .null => []
     | some story => extractCandidatesFromObject story baseUrl "api-story" none
     | none => [])
  let candidates := candidates ++
    (if jsonTruthy ((jsonField pinFields "is_video".data).getD .null) then
      extractCandidatesFromObject (.obj pinFields) baseUrl "api-fallback" (some "video")
    else [])
  sortAndDedupe candidates

/-- _fetch_pin_api_candidates given the item-info endpoint's outcome.
The Except error is the uncaught AttributeError Python would raise if the
decoded payload were not a dictionary. -/
def fetchPinApiCandidates (outcome : JsonFetch) (pinId : Chars) :
    Except Unit (List MediaCandidate) :=
  match outcome with
  | .fail => .ok []
  | .badJson => .ok []
  | .json payload =>
    match payload with
    | .obj payloadFields =>
      match jsonField payloadFields "data".data with
      | some (.arr (first :: _)) =>
        match first with
        | .obj pinFields => .ok (sortAndDedupe (pinDataCandidates pinId pinFields))
        | _ => .ok []
      | _ => .ok []
    | _ => .error ()

/-- _resolve_pin_id_via_oembed given the oembed endpoint's outcome. -/
def resolvePinIdViaOembed (outcome : JsonFetch) : Except Unit (Option Chars) :=
  match outcome with
  | .fail => .ok none
  | .badJson => .ok none
  | .json payload =>
    match payload with
    | .obj fs =>
      match jsonField fs "html".data with
      | some (.str htmlEmbed) => .ok (oembedIdSearch htmlEmbed)
      | _ => .ok none
    | _ => .error ()

/-- _fetch_oembed_media_candidates given the oembed endpoint's outcome. -/
def fetchOembedMediaCandidates (outcome : JsonFetch) (pageUrl : Chars) :
    Except Unit (List MediaCandidate) :=
  match outcome with
  | .fail => .ok []
  | .badJson => .ok []
  | .json payload =>
    match payload with
    | .obj fs =>
      let forKey := fun (key : Chars) (sourceTag : String) =>
        match jsonField fs key with
        | some (.str value) =>
          match normalizeCandidate value pageUrl with
          | none => []
          | some normalized =>
            match inferMediaTypeFromUrl normalized with
            | some mediaType =>
              if mediaType = "image" ∧ isPlaceholderImage normalized then []
              else buildCandidates normalized mediaType sourceTag key
            | none => []
        | _ => []
      .ok (sortAndDedupe
        (forKey "thumbnail_url".data "oembed-thumbnail_url" ++ forKey "url".data "oembed-url"))
    | _ => .error ()

/-! ## HTML scanners

Embeddings of META_IMAGE_PATTERNS, LD_JSON_PATTERN and
HOSTED_MEDIA_PATTERN.  Case-insensitive literal searching matches the
IGNORECASE flag of the source patterns; the scanners do not re-create
regex backtracking inside a tag, which no claim input exercises. -/

/-- Case-insensitive prefix test against a lowercase pattern. -/
def ciHasPrefix (pat l : Chars) : Bool := lowerChars (l.take pat.length) = pat

/-- Split at the first case-insensitive occurrence of a lowercase pattern:
text before (original case) and text after. -/
def splitCI (pat : Chars) : Chars → Option (Chars × Chars)
  | [] => if pat = [] then some ([], []) else none
  | c :: rest =>
    if ciHasPrefix pat (c :: rest) then some ([], (c :: rest).drop pat.length)
    else (splitCI pat rest).map (fun r => (c :: r.1, r.2))

/-- Remainder after the first case-insensitive occurrence of pat. -/
def findCI (pat l : Chars) : Option Chars := (splitCI pat l).map (fun r => r.2)

def isQuoteChar (c : Char) : Bool := c = '"' ∨ c = '\''

/-- After content= : a quote and a nonempty capture of non-quote
characters.  Returns the capture and the remainder. -/
def captureAfterQuote (l : Chars) : Option (Chars × Chars) :=
  match l with
  | q :: body =>
    if isQuoteChar q then
      let cap := body.takeWhile (fun c => ¬ isQuoteChar c)
      if cap = [] then none else some (cap, body.drop cap.length)
    else none
  | [] => none

/-- A quoted literal value: quote, the lowercase literal val (matched
case-insensitively), quote.  Returns the remainder. -/
def quotedLiteral (val l : Chars) : Option Chars :=
  match l with
  | q :: rest =>
    if isQuoteChar q ∧ ciHasPrefix val rest then
      match rest.drop val.length with
      | q2 :: rest' => if isQuoteChar q2 then some rest' else none
      | [] => none
    else none
  | [] => none

/-- Body of META_IMAGE_PATTERNS[0] after the meta-tag opener:
property=["..."]og:image["..."] then content=["..."] with the capture. -/
def metaPropertyThenContent (l : Chars) : Option (Chars × Chars) :=
  match findCI "property=".data l with
  | none => none
  | some afterProp =>
    match quotedLiteral "og:image".data afterProp with
    | none => none
    | some afterVal =>
      match findCI "content=".data afterVal with
      | none => none
      | some afterContent => captureAfterQuote afterContent

/-- Body of META_IMAGE_PATTERNS[1]: content=["..."] capture, then
property=["..."]og:image. -/
def metaContentThenProperty (l : Chars) : Option (Chars × Chars) :=
  match findCI "content=".data l with
  | none => none
  | some afterContent =>
    match captureAfterQuote afterContent with
    | none => none
    | some (cap, afterCap) =>
      match findCI "property=".data afterCap with
      | none => none
      | some afterProp =>
        match afterProp with
        | q :: rest =>
          if isQuoteChar q ∧ ciHasPrefix "og:image".data rest then
            some (cap, rest.drop 8)
          else none
        | [] => none

/-- Body of META_IMAGE_PATTERNS[2]:
name=["..."]twitter:image(:src)?["..."] then content=["..."] capture. -/
def metaNameThenContent (l : Chars) : Option (Chars × Chars) :=
  match findCI "name=".data l with
  | none => none
  | some afterName =>
    let tryVal := fun (val : Chars) => quotedLiteral val afterName
    match (match tryVal "twitter:image:src".data with
           | some r => some r
           | none => tryVal "twitter:image".data) with
    | none => none
    | some afterVal =>
      match findCI "content=".data afterVal with
      | none => none
      | some afterContent => captureAfterQuote afterContent

/-- finditer over one meta pattern: scan for meta-tag openers and apply
the pattern body; non-overlapping, left to right. -/
def scanMeta (body : Chars → Option (Chars × Chars)) : Nat → Chars → List Chars
  | 0, _ => []
  | _, [] => []
  | fuel + 1, c :: rest =>
    if ciHasPrefix "<meta".data (c :: rest) then
      match body ((c :: rest).drop 5) with
      | some (cap, rem) => cap :: scanMeta body fuel rem
      | none => scanMeta body fuel rest
    else scanMeta body fuel rest

/-- All captures of the three META_IMAGE_PATTERNS, pattern by pattern. -/
def metaImageCaptures (htmlText : Chars) : List Chars :=
  scanMeta metaPropertyThenContent htmlText.length htmlText ++
  scanMeta metaContentThenProperty htmlText.length htmlText ++
  scanMeta metaNameThenContent htmlText.length htmlText

/-- LD_JSON_PATTERN finditer: script tags typed application/ld+json, the
capture running (non-greedily) to the closing script tag. -/
def scanLdjson : Nat → Chars → List Chars
  | 0, _ => []
  | _, [] => []
  | fuel + 1, c :: rest =>
    if ciHasPrefix "<script".data (c :: rest) then
      match findCI "type=".data ((c :: rest).drop 7) with
      | none => []
      | some afterType =>
        match quotedLiteral "application/ld+json".data afterType with
        | none => scanLdjson fuel rest
        | some afterVal =>
          match findCI ">".data afterVal with
          | none => scanLdjson fuel rest
          | some tagBody =>
            match splitCI "</script>".data tagBody with
            | none => scanLdjson fuel rest
            | some (cap, rem) => cap :: scanLdjson fuel rem
    else scanLdjson fuel rest

/-- Subdomain-plus-host part of HOSTED_MEDIA_PATTERN:
(?:[a-z0-9-]+\.)?pinimg\.com with IGNORECASE; returns its length. -/
def hostedHostMatch (l : Chars) : Option Nat :=
  if ciHasPrefix "pinimg.com".data l then some 10
  else
    let run := l.takeWhile (fun c => c.isAlpha ∨ c.isDigit ∨ c = '-')
    if ¬ run = [] ∧ (l.drop run.length).take 1 = ['.'] ∧
        ciHasPrefix "pinimg.com".data (l.drop (run.length + 1)) then
      some (run.length + 11)
    else none

/-- One match attempt of HOSTED_MEDIA_PATTERN at the current position:
https?: then either the doubly-escaped separator \\/\\/ or //, the host
part, and a nonempty run of characters outside the disallowed class.
Returns the length of group(0). -/
def hostedMatchAt (l : Chars) : Option Nat :=
  let prefixLen? : Option Nat :=
    if ciHasPrefix "https:".data l then some 6
    else if ciHasPrefix "http:".data l then some 5
    else none
  match prefixLen? with
  | none => none
  | some p =>
    let sepLen? : Option Nat :=
      if (l.drop p).take 6 = ['\\', '\\', '/', '\\', '\\', '/'] then some 6
      else if (l.drop p).take 2 = ['/', '/'] then some 2
      else none
    match sepLen? with
    | none => none
    | some s =>
      match hostedHostMatch (l.drop (p + s)) with
      | none => none
      | some h =>
        let tail := (l.drop (p + s + h)).takeWhile (fun c => ¬ normalizedUrlDisallowed c)
        if tail = [] then none else some (p + s + h + tail.length)

/-- HOSTED_MEDIA_PATTERN finditer: group(0) of every non-overlapping
match, left to right. -/
def scanHosted : Nat → Chars → List Chars
  | 0, _ => []
  | _, [] => []
  | fuel + 1, c :: rest =>
    match hostedMatchAt (c :: rest) with
    | some len => (c :: rest).take len :: scanHosted fuel ((c :: rest).drop len)
    | none => scanHosted fuel rest

/-! ## _extract_ldjson_candidates and _extract_html_candidates -/

def extractLdjsonCandidates (htmlText baseUrl : Chars) : List MediaCandidate :=
  sortAndDedupe ((scanLdjson htmlText.length htmlText).flatMap (fun rawBlock =>
    let rawJson := pyStrip rawBlock
    if rawJson = [] then []
    else
      match parseJson rawJson with
      | none => []
      | some payload => extractCandidatesFromObject payload baseUrl "ldjson" none))

def extractHtmlCandidates (htmlText baseUrl : Chars) : List MediaCandidate :=
  let metaCands := (metaImageCaptures htmlText).flatMap (fun cap =>
    match normalizeCandidate cap baseUrl with
    | some normalized =>
      if ¬ isPlaceholderImage normalized then
        buildCandidates normalized "image" "meta" "meta".data
      else []
    | none => [])
  let candidates := metaCands ++ extractLdjsonCandidates htmlText baseUrl
  if ¬ candidates = [] then sortAndDedupe candidates
  else
    sortAndDedupe ((scanHosted htmlText.length htmlText).flatMap (fun matched =>
      match normalizeCandidate matched baseUrl with
      | none => []
      | some normalized =>
        match inferMediaTypeFromUrl normalized with
        | none => []
        | some mediaType =>
          if mediaType = "image" ∧ isPlaceholderImage normalized then []
          else buildCandidates normalized mediaType "html-regex" []))

/-! ## resolve_media_candidates

The one page GET (with redirects and raise_for_status) and the three JSON
endpoint calls are supplied by a world record; everything else is the
embedded code.  ResolveErr.resolution is the typed ResolutionError;
network is an uncaught requests error from the page GET; crash is the
AttributeError Python would raise on a non-dictionary JSON payload. -/

structure PageResponse where
  url : Chars
  text : Chars

structure ResolverWorld where
  page : Except Unit PageResponse
  api : Chars → JsonFetch
  oembedId : JsonFetch
  oembedMedia : JsonFetch

inductive ResolveErr where
  | resolution (msg : String)
  | network
  | crash
deriving DecidableEq, Repr

/-- The direct fast path applies: pinimg host and inferable media type. -/
def directFastPathApplies (url : Chars) : Bool :=
  isPinimgHost (urlparse url).netloc ∧ (inferMediaTypeFromUrl url).isSome

/-- The pin-id chain of resolve_media_candidates: final URL, then the
normalized input, then the page body, then the oembed probe. -/
def resolvedPinId (w : ResolverWorld) (normalized : Chars) (resp : PageResponse) :
    Except Unit (Option Chars) :=
  match extractPinId resp.url with
  | some pid => .ok (some pid)
  | none =>
    match extractPinId normalized with
    | some pid => .ok (some pid)
    | none =>
      match extractPinId resp.text with
      | some pid => .ok (some pid)
      | none => resolvePinIdViaOembed w.oembedId

/-- Strategy 3, the private API: empty when no pin id was found. -/
def apiStrategyCandidates (w : ResolverWorld) (normalized : Chars) (resp : PageResponse) :
    Except Unit (List MediaCandidate) :=
  match resolvedPinId w normalized resp with
  | .error e => .error e
  | .ok none => .ok []
  | .ok (some pid) => fetchPinApiCandidates (w.api pid) pid

/-- Strategy 4, HTML scraping plus the oembed media merge. -/
def htmlStrategyCandidates (w : ResolverWorld) (resp : PageResponse) :
    Except Unit (List MediaCandidate) :=
  match fetchOembedMediaCandidates w.oembedMedia resp.url with
  | .error e => .error e
  | .ok oembedCands => .ok (extractHtmlCandidates resp.text resp.url ++ oembedCands)

def preferredHosts : List Chars := ["i.pinimg.com".data, "v1.pinimg.com".data]

/-- resolve_media_candidates. -/
def resolveMediaCandidates (w : ResolverWorld) (pinUrl : Chars) :
    Except ResolveErr (List MediaCandidate) :=
  let normalized := normalizeUrl pinUrl
  if ¬ isValidHttpUrl normalized then .error (.resolution "Invalid URL format.")
  else
    match (if isPinimgHost (urlparse normalized).netloc then
            inferMediaTypeFromUrl normalized else none) with
    | some mediaType =>
      .ok (sortAndDedupe (buildCandidates normalized mediaType "direct" "orig".data))
    | none =>
      match w.page with
      | .error _ => .error .network
      | .ok resp =>
        match (if isPinimgHost (urlparse resp.url).netloc then
                inferMediaTypeFromUrl resp.url else none) with
        | some mediaType =>
          .ok (sortAndDedupe (buildCandidates resp.url mediaType "redirect" "orig".data))
        | none =>
          match apiStrategyCandidates w normalized resp with
          | .error _ => .error .crash
          | .ok apiCandidates =>
            if ¬ apiCandidates = [] then .ok (sortAndDedupe apiCandidates)
            else
              match htmlStrategyCandidates w resp with
              | .error _ => .error .crash
              | .ok htmlCandidates =>
                let deduped := sortAndDedupe htmlCandidates
                let preferred := deduped.filter (fun item =>
                  item.media_type = "video" ∨
                    preferredHosts.contains (lowerChars (urlparse item.url).netloc))
                let deduped := if ¬ preferred = [] then preferred else deduped
                if deduped = [] then
                  .error (.resolution
                    "Could not detect image or video media on this Pinterest page.")
                else .ok deduped

/-! ## app/services/profile_collector.py -/

structure ProfileCollectionResult where
  profile_url : Chars
  profile_username : Chars
  pin_urls : List Chars
  discovered_count : Nat
deriving DecidableEq, Repr

inductive ProfileErr where
  | collection (msg : String)
  | network
  | crash
deriving DecidableEq, Repr

/-- Outcome of one POST to the UserPinsResource endpoint: fail is an
uncaught requests error, status403 the special-cased status, badJson a
body response.json() rejects. -/
inductive ProfileFetch where
  | fail
  | status403
  | badJson
  | json (j : Json)

structure ProfileWorld where
  page : Except Unit Chars
  pins : Nat → ProfileFetch

/-- Case-sensitive split at the first occurrence of pat. -/
def splitSub (pat : Chars) : Chars → Option (Chars × Chars)
  | [] => if pat = [] then some ([], []) else none
  | c :: rest =>
    if pat.isPrefixOf (c :: rest) then some ([], (c :: rest).drop pat.length)
    else (splitSub pat rest).map (fun r => (c :: r.1, r.2))

/-- INITIAL_PROPS_SCRIPT_RE search (case-sensitive, DOTALL): the literal
script opener for __PWS_INITIAL_PROPS__, capture to the first closing
script tag. -/
def initialPropsSearch (htmlText : Chars) : Option Chars :=
  match splitSub "<script id=\"__PWS_INITIAL_PROPS__\" type=\"application/json\">".data htmlText with
  | none => none
  | some (_, afterOpener) =>
    match splitSub "</script>".data afterOpener with
    | none => none
    | some (blob, _) => some blob

/-- _parse_initial_props. -/
def parseInitialProps (htmlText : Chars) : Option (List (Chars × Json)) :=
  match initialPropsSearch htmlText with
  | none => none
  | some blob =>
    match parseJson blob with
    | some (.obj fs) => some fs
    | _ => none

/-- _extract_user_pins_entry. -/
def extractUserPinsEntry (initialProps : List (Chars × Json)) :
    Option (List (Chars × Json)) :=
  match jsonField initialProps "initialReduxState".data with
  | some (.obj stateFields) =>
    match jsonField stateFields "resources".data with
    | some (.obj resourceFields) =>
      match jsonField resourceFields "UserPinsResource".data with
      | some (.obj (firstEntry :: _)) =>
        match firstEntry.2 with
        | .obj entryFields => some entryFields
        | _ => none
      | _ => none
    | _ => none
  | _ => none

/-- PIN_PATH_RE of the collector, /pin/(\d+)/ with IGNORECASE: findall of
the digit groups, non-overlapping, left to right. -/
def profilePinFindAll : Nat → Chars → List Chars
  | 0, _ => []
  | _, [] => []
  | fuel + 1, c :: rest =>
    if c = '/' ∧ lowerChars (rest.take 4) = "pin/".data then
      let ds := (rest.drop 4).takeWhile Char.isDigit
      if ¬ ds = [] ∧ ((rest.drop 4).drop ds.length).take 1 = ['/'] then
        ds :: profilePinFindAll fuel ((rest.drop 4).drop (ds.length + 1))
      else profilePinFindAll fuel rest
    else profilePinFindAll fuel rest

/-- PIN_PATH_RE search: the first digit group, when the pattern matches. -/
def profilePinSearch (text : Chars) : Option Chars :=
  (profilePinFindAll text.length text).head?

/-- _extract_pin_urls_from_resource_data. -/
def extractPinUrlsFromResourceData (rows : Json) : List Chars :=
  match rows with
  | .arr items =>
    items.flatMap (fun row =>
      match row with
      | .obj rowFields =>
        match (match jsonField rowFields "seo_url".data with
               | some (.str seoUrl) => profilePinSearch seoUrl
               | _ => none) with
        | some pid => [canonicalPinUrl pid]
        | none =>
          match jsonField rowFields "id".data with
          | some (.str pinId) =>
            if ¬ pinId = [] ∧ pinId.all Char.isDigit then [canonicalPinUrl pinId]
            else []
          | _ => []
      | _ => [])
  | _ => []

/-- _extract_pin_urls_from_html. -/
def extractPinUrlsFromHtml (htmlText : Chars) : List Chars :=
  (profilePinFindAll htmlText.length htmlText).map canonicalPinUrl

/-- The per-URL normalisation of _dedupe_urls: drop query and fragment. -/
def stripQueryFragment (url : Chars) : Chars :=
  urlunparse { urlparse url with query := [], fragment := [] }

def dedupeProfileUrlsGo (seen : List Chars) : List Chars → List Chars
  | [] => []
  | url :: rest =>
    let normalized := stripQueryFragment url
    if seen.contains normalized then dedupeProfileUrlsGo seen rest
    else normalized :: dedupeProfileUrlsGo (normalized :: seen) rest

/-- _dedupe_urls. -/
def dedupeProfileUrls (urls : List Chars) : List Chars := dedupeProfileUrlsGo [] urls

/-- _can_continue_pagination. -/
def canContinuePagination (bookmark : Json) (maxPins : Int) (currentCount : Nat) : Bool :=
  if maxPins > 0 ∧ (currentCount : Int) ≥ maxPins then false
  else
    match bookmark with
    | .str s =>
      if s = [] then false
      else if s = "-end-".data then false
      else true
    | _ => false

/-- _fetch_user_pins_page given the endpoint's outcome for this call. -/
def fetchUserPinsPage (outcome : ProfileFetch) : Except ProfileErr (List Json × Chars) :=
  match outcome with
  | .status403 => .ok ([], "-end-".data)
  | .fail => .error .network
  | .badJson => .ok ([], "-end-".data)
  | .json payload =>
    match payload with
    | .obj payloadFields =>
      match jsonField payloadFields "resource_response".data with
      | some (.obj resourceResponse) =>
        let bookmarkValue :=
          match jsonField resourceResponse "bookmark".data with
          | some (.str s) => s
          | _ => "-end-".data
        match jsonField resourceResponse "data".data with
        | some (.arr rows) =>
          .ok (rows.filter (fun r => match r with | .obj _ => true | _ => false),
               bookmarkValue)
        | _ => .ok ([], bookmarkValue)
      | _ => .ok ([], "-end-".data)
    | _ => .error .crash

/-- The pagination while-loop of collect_profile_pin_urls (lines 88-104).
Returns the collected pin URLs (or the propagated fetch error) together
with the trace of cursors recorded into seen_bookmarks, in fetch order.
The fuel argument only truncates runs the remote could prolong forever;
every Python-visible exit is taken as soon as its condition holds. -/
def paginateLoop (pins : Nat → ProfileFetch) (maxPins : Int) :
    Nat → Json → List Chars → List Chars → Nat →
    Except ProfileErr (List Chars) × List Chars
  | 0, _, collected, trace, _ => (.ok collected, trace)
  | fuel + 1, bookmark, collected, trace, callIdx =>
    if canContinuePagination bookmark maxPins collected.length then
      match bookmark with
      | .str s =>
        if trace.contains s then (.ok collected, trace)
        else
          match fetchUserPinsPage (pins callIdx) with
          | .error e => (.error e, trace ++ [s])
          | .ok (pageData, nextBookmark) =>
            if pageData.isEmpty then (.ok collected, trace ++ [s])
            else
              paginateLoop pins maxPins fuel (.str nextBookmark)
                (collected ++ extractPinUrlsFromResourceData (.arr pageData))
                (trace ++ [s]) (callIdx + 1)
      | _ => (.ok collected, trace)
    else (.ok collected, trace)

/-- collect_profile_pin_urls.  The two `if not ...:` guards test Python
truthiness of dict-or-None values: an empty initial-props dictionary is
falsy and raises exactly like a missing one, and an empty UserPinsResource
entry dictionary is falsy and diverts to the HTML fallback exactly like a
missing one. -/
def collectProfilePinUrls (w : ProfileWorld) (profileUrl : Chars) (maxPins : Int)
    (fuel : Nat) : Except ProfileErr ProfileCollectionResult :=
  let normalized := normalizeUrl profileUrl
  if ¬ isValidHttpUrl normalized then .error (.collection "Invalid profile URL format.")
  else
    match extractProfileUsername normalized with
    | none =>
      .error (.collection "Could not detect Pinterest profile username from this URL.")
    | some username =>
      let canonicalP := canonicalProfileUrl username
      match w.page with
      | .error _ => .error .network
      | .ok pageText =>
        match parseInitialProps pageText with
        | none => .error (.collection "Could not parse profile data from Pinterest page.")
        | some [] => .error (.collection "Could not parse profile data from Pinterest page.")
        | some initialData =>
          match extractUserPinsEntry initialData with
          | none =>
            let fallback := extractPinUrlsFromHtml pageText
            if fallback = [] then .error (.collection "No pins were detected on this profile.")
            else
              let deduped := dedupeProfileUrls fallback
              let deduped := if maxPins > 0 then deduped.take maxPins.toNat else deduped
              .ok { profile_url := canonicalP, profile_username := username,
                    pin_urls := deduped, discovered_count := deduped.length }
          | some [] =>
            let fallback := extractPinUrlsFromHtml pageText
            if fallback = [] then .error (.collection "No pins were detected on this profile.")
            else
              let deduped := dedupeProfileUrls fallback
              let deduped := if maxPins > 0 then deduped.take maxPins.toNat else deduped
              .ok { profile_url := canonicalP, profile_username := username,
                    pin_urls := deduped, discovered_count := deduped.length }
          | some (entryField :: entryRest) =>
            let entry := entryField :: entryRest
            let collected :=
              extractPinUrlsFromResourceData ((jsonField entry "data".data).getD .null)
            let bookmark := (jsonField entry "nextBookmark".data).getD .null
            match paginateLoop w.pins maxPins fuel bookmark collected [] 0 with
            | (.error e, _) => .error e
            | (.ok collected, _) =>
              let deduped := dedupeProfileUrls collected
              let deduped := if maxPins > 0 then deduped.take maxPins.toNat else deduped
              match deduped with
              | [] => .error (.collection "No downloadable pins found on this profile.")
              | _ :: _ =>
                .ok { profile_url := canonicalP, profile_username := username,
                      pin_urls := deduped, discovered_count := deduped.length }

/-! ## Statement-support definitions -/

/-- The character set of Python str.strip in _normalize_candidate:
double quote, single quote, space, closing parenthesis, comma. -/
def stripSetChars : Chars := "\"' ),".data

/-- A canonical absolute URL, the hypothesis of the idempotence property:
lowercase http(s) scheme with a host that CPython's urlsplit accepts (no
unbalanced square bracket, which would raise Invalid IPv6 URL); no
ampersand, backslash or character of the normalizer's disallowed class
anywhere; a last character that neither the strip set nor the
trailing-punctuation strip removes; and a URL that survives a
parse-unparse round trip (ruling out dangling empty query, fragment or
parameter delimiters). -/
def canonicalAbsoluteUrl (url : Chars) : Bool :=
  ("http://".data.isPrefixOf url || "https://".data.isPrefixOf url) &&
  !(urlparse url).netloc.isEmpty &&
  !(invalidIpv6Url url) &&
  url.all (fun c => !(c == '&' || c == '\\' || normalizedUrlDisallowed c)) &&
  (match url.getLast? with
   | some c => !(stripSetChars.contains c || c == '.' || c == ',' || c == ';')
   | none => false) &&
  decide (urlunparse (urlparse url) = url)

/-- Replace the path component of parsed URL parts. -/
def withPath (u : UrlParts) (p : Chars) : UrlParts := { u with path := p }

/-- The synthesized originals variant URL of _pinimg_variants: the first
path segment replaced by originals, rebuilt over the given remaining
segments. -/
def originalsRebuiltUrl (url : Chars) (restSegments : List Chars) : Chars :=
  urlunparse (withPath (urlparse url)
    ('/' :: List.intercalate ['/'] ("originals".data :: restSegments)))

/-! Concrete worlds and payloads used by witnesses and counterexamples. -/

/-- A resolver world in which every network interaction fails. -/
def offlineResolverWorld : ResolverWorld :=
  { page := .error (), api := fun _ => .fail, oembedId := .fail, oembedMedia := .fail }

/-- A resolver world whose page fetch succeeds with an empty body on a
non-media page, and whose JSON endpoints fail. -/
def emptyPageResolverWorld : ResolverWorld :=
  { page := .ok { url := "https://example.com/x".data, text := [] },
    api := fun _ => .fail, oembedId := .fail, oembedMedia := .fail }

/-- The item-info payload of the image-only end-to-end scenario:
images holds exactly the 736x entry, and there is no videos, story or
is_video field. -/
def imageOnlyApiPayload : Json :=
  .obj [("data".data, .arr [
    .obj [("images".data, .obj [("736x".data,
      .obj [("url".data, .str "https://i.pinimg.com/736x/aa/bb/cc.jpg".data)])])]])]

/-- The two candidates that payload produces. -/
def imageOnlyOriginalsCandidate : MediaCandidate :=
  { url := "https://i.pinimg.com/originals/aa/bb/cc.jpg".data, media_type := "image",
    quality_score := 10300, source := "api-images" }

def imageOnly736Candidate : MediaCandidate :=
  { url := "https://i.pinimg.com/736x/aa/bb/cc.jpg".data, media_type := "image",
    quality_score := 2772, source := "api-images" }

/-- Profile page whose initial-props blob parses to a non-empty (truthy)
object that carries no UserPinsResource entry, so collection falls back
to scanning the HTML; it carries two distinct pin links and one
duplicate. -/
def fallbackProfileHtml : Chars :=
  ("<script id=\"__PWS_INITIAL_PROPS__\" type=\"application/json\">" ++
   "\x7b\"k\": \"v\"\x7d</script>" ++
   "<a href=\"/pin/111/\">x</a><a href=\"/pin/222/\">y</a><a href=\"/pin/111/\">z</a>").data

def fallbackProfileWorld : ProfileWorld :=
  { page := .ok fallbackProfileHtml, pins := fun _ => .fail }

/-- Profile page whose initial-state blob holds one pin and the bookmark
B1 for the pagination loop. -/
def pagedProfileHtml : Chars :=
  ("<script id=\"__PWS_INITIAL_PROPS__\" type=\"application/json\">" ++
   "\x7b\"initialReduxState\": \x7b\"resources\": \x7b\"UserPinsResource\": \x7b\"k1\": " ++
   "\x7b\"data\": [\x7b\"id\": \"111\"\x7d], \"nextBookmark\": \"B1\"\x7d\x7d\x7d\x7d\x7d" ++
   "</script>").data

/-- A UserPinsResource response carrying the given pin ids and bookmark. -/
def userPinsResponse (ids : List String) (bookmark : String) : Json :=
  .obj [("resource_response".data, .obj
    [("data".data, .arr (ids.map (fun i => .obj [("id".data, .str i.data)]))),
     ("bookmark".data, .str bookmark.data)])]

/-- A profile world whose page-2 bookmark repeats the page-1 bookmark B1:
the cycle guard must stop pagination after one fetch. -/
def repeatingBookmarkWorld : ProfileWorld :=
  { page := .ok pagedProfileHtml,
    pins := fun k =>
      if k = 0 then .json (userPinsResponse ["222"] "B1")
      else .json (userPinsResponse ["333"] "B2") }

/-! # Theorems -/

/-! ## Shared helper lemmas -/

theorem imageSizeBonus_nonneg (p : Chars) : 0 ≤ imageSizeBonus p := by
  unfold imageSizeBonus
  split
  · exact le_refl 0
  · split
    · dsimp only
      split_ifs <;> omega
    · exact le_refl 0

theorem scoreVideo_lower_bound (url hint : Chars) : 19550 ≤ scoreVideo url hint := by
  unfold scoreVideo
  have h1 : (0 : Int) ≤ ((digitsToNat (hint.filter Char.isDigit)) : Int) :=
    Int.natCast_nonneg _
  rcases hv : videoResSearch (lowerChars (urlparse url).path) with _ | n
  · simp only [hv]
    split_ifs <;> omega
  · have h2 : (0 : Int) ≤ (n : Int) := Int.natCast_nonneg _
    simp only [hv]
    split_ifs <;> omega

theorem scoreImage_upper_bound (url hint : Chars) :
    scoreImage url hint ≤ 10300 + imageSizeBonus (lowerChars (urlparse url).path) := by
  unfold scoreImage
  dsimp only
  split_ifs <;> omega

theorem scoreImage_lower_bound (url hint : Chars)
    (hOriginals : containsSub "/originals/".data (lowerChars (urlparse url).path) = true)
    (hHost : isPinimgHost (urlparse url).netloc = true) :
    4300 ≤ scoreImage url hint := by
  have hb := imageSizeBonus_nonneg (lowerChars (urlparse url).path)
  unfold scoreImage
  dsimp only
  rw [if_pos (Or.inl hOriginals), if_pos hHost,
    if_neg (by simp [hOriginals] : ¬ (containsSub "/images/".data (lowerChars (urlparse url).path) = true ∧ ¬ containsSub "/originals/".data (lowerChars (urlparse url).path) = true))]
  split_ifs <;> omega

/-- Every reserved segment is unchanged by strip-and-lower. -/
theorem reserved_strip_lower_fixed :
    ∀ s ∈ reservedProfileSegments, lowerChars (pyStrip s) = s := by decide

theorem dropWhile_append_singleton {p : Char → Bool} {l : Chars} {c : Char}
    (hc : p c = false) :
    List.dropWhile p (l ++ [c]) =
      if List.dropWhile p l = [] then [c] else List.dropWhile p l ++ [c] := by
  induction l with
  | nil => simp [List.dropWhile, hc]
  | cons x xs ih =>
    by_cases hx : p x
    · simpa [List.dropWhile_cons, hx] using ih
    · simp [List.dropWhile_cons, hx]

/-- Stripping keeps a head the strip predicate rejects. -/
theorem pyStrip_cons_of_not_space {c : Char} (t : Chars) (hc : isPySpace c = false) :
    ∃ t', pyStrip (c :: t) = c :: t' := by
  unfold pyStrip lstripBy rstripBy
  rw [List.dropWhile_cons, hc]
  simp only [Bool.false_eq_true, if_false, List.reverse_cons]
  rw [dropWhile_append_singleton hc]
  split
  · exact ⟨[], by simp⟩
  · exact ⟨(List.dropWhile isPySpace t.reverse).reverse, by simp⟩

/-! ## C7: video scores versus image scores -/

/-- C7, counterexample: the claim that every video candidate outscores
every image candidate fails; an image whose resize segment advertises
99999x99999 outscores an hls m3u8 video. -/
theorem C7_counterexample :
    scoreVideo "https://v1.pinimg.com/videos/hls/a.m3u8".data [] <
      scoreImage "https://i.pinimg.com/99999x99999/a.jpg".data [] := by decide

/-- C7, amended: a video candidate outscores an image candidate whenever
the image's width-plus-height bonus from its resize segment is at most
9249 (every real Pinterest size class qualifies); the video floor is
19550 and such an image is capped at 19549. -/
theorem C7_amended (videoUrl videoHint imageUrl imageHint : Chars)
    (hBonus : imageSizeBonus (lowerChars (urlparse imageUrl).path) ≤ 9249) :
    scoreImage imageUrl imageHint < scoreVideo videoUrl videoHint := by
  have h1 := scoreVideo_lower_bound videoUrl videoHint
  have h2 := scoreImage_upper_bound imageUrl imageHint
  omega

/-- C7, witness for the amended theorem at a concrete pair. -/
theorem C7_witness :
    scoreImage "https://i.pinimg.com/736x/aa/bb/cc.jpg".data "736x".data <
      scoreVideo "https://v1.pinimg.com/videos/720p/a.mp4".data [] :=
  C7_amended _ _ _ _ (by decide)

/-! ## C9: extracted handles avoid reserved and underscore segments -/

/-- C9: the handle extractor never returns a reserved keyword or an
underscore-prefixed segment, and whenever the first path segment is
reserved or underscore-prefixed it returns no handle at all. -/
theorem C9_extract_handle_reserved :
    (∀ url u, extractProfileUsername url = some u →
      reservedProfileSegments.contains u = false ∧ ¬ u.take 1 = ['_']) ∧
    (∀ url s rest, pathSegments (urlparse url).path = s :: rest →
      (reservedProfileSegments.contains s = true ∨ s.take 1 = ['_']) →
      extractProfileUsername url = none) := by
  constructor
  · intro url u h
    unfold extractProfileUsername at h
    dsimp only at h
    split at h
    · exact absurd h (by simp)
    · split at h
      · exact absurd h (by simp)
      · split at h
        · exact absurd h (by simp)
        · split at h
          · exact absurd h (by simp)
          · split at h
            · exact absurd h (by simp)
            · rename_i hres htake
              cases h
              constructor
              · simpa using hres
              · exact htake
  · intro url s rest hsegs hcase
    unfold extractProfileUsername
    dsimp only
    split
    · rfl
    · split
      · rfl
      · rw [hsegs]
        dsimp only
        rcases hcase with hres | hunder
        · rw [reserved_strip_lower_fixed s (by simpa using hres), if_pos hres]
        · cases s with
          | nil => simp at hunder
          | cons c t =>
            have hc : c = '_' := by simpa [List.take] using hunder
            subst hc
            obtain ⟨t', ht'⟩ := pyStrip_cons_of_not_space (c := '_') t (by decide)
            rw [ht']
            split
            · rfl
            · split
              · rfl
              · rename_i htake
                exact absurd (by simp [lowerChars]) htake

/-- C9, witness. -/
theorem C9_witness :
    (reservedProfileSegments.contains "user1".data = false ∧
      ¬ ("user1".data).take 1 = ['_']) ∧
    extractProfileUsername "https://www.pinterest.com/search/q".data = none :=
  ⟨C9_extract_handle_reserved.1 "https://www.pinterest.com/User1/".data "user1".data (by decide),
   C9_extract_handle_reserved.2 "https://www.pinterest.com/search/q".data
     "search".data ["q".data] (by decide) (Or.inl (by decide))⟩

/-! ## C10: item and account classification are mutually exclusive -/

/-- C10: no URL is both an item URL and an account URL, and a URL on the
short-link host pin.it is always an item URL and never yields a handle. -/
theorem C10_classifiers_exclusive :
    (∀ url, ¬ (isPinUrl url = true ∧ isProfileUrl url = true)) ∧
    (∀ url, lowerChars (urlparse url).netloc = "pin.it".data →
      isPinUrl url = true ∧ extractProfileUsername url = none) := by
  constructor
  · rintro url ⟨hpin, hprof⟩
    unfold isProfileUrl at hprof
    rw [if_pos hpin] at hprof
    exact absurd hprof (by simp)
  · intro url hhost
    constructor
    · unfold isPinUrl
      dsimp only
      rw [hhost]
      simp [pinShortHosts]
    · unfold extractProfileUsername
      dsimp only
      rw [hhost]
      have h1 : ¬ ¬ isPinterestHost "pin.it".data = true := by decide
      have h2 : pinShortHosts.contains "pin.it".data = true := by decide
      rw [if_neg h1, if_pos h2]

/-- C10, witness. -/
theorem C10_witness :
    ¬ (isPinUrl "https://pin.it/abc".data = true ∧
        isProfileUrl "https://pin.it/abc".data = true) ∧
    isPinUrl "https://pin.it/abc".data = true ∧
    extractProfileUsername "https://pin.it/abc".data = none :=
  ⟨C10_classifiers_exclusive.1 _,
   C10_classifiers_exclusive.2 "https://pin.it/abc".data (by decide)⟩

/-! ## C4: the pagination cycle guard -/

/-- The cursor trace only ever grows by cursors not yet recorded. -/
theorem paginateLoop_trace_nodup (pins : Nat → ProfileFetch) (maxPins : Int) :
    ∀ fuel bookmark collected trace callIdx, trace.Nodup →
      ((paginateLoop pins maxPins fuel bookmark collected trace callIdx).2).Nodup := by
  intro fuel
  induction fuel with
  | zero => intro bookmark collected trace callIdx h; simpa [paginateLoop] using h
  | succ n ih =>
    intro bookmark collected trace callIdx h
    unfold paginateLoop
    split
    · cases bookmark with
      | str s =>
        dsimp only
        by_cases hs : trace.contains s = true
        · rw [if_pos hs]
          simpa using h
        · rw [if_neg hs]
          have hmem : s ∉ trace := by simpa using hs
          have hnew : (trace ++ [s]).Nodup := by
            simp [List.nodup_append, h, hmem]
          split
          · simpa using hnew
          · split
            · simpa using hnew
            · exact ih _ _ _ _ hnew
      | null => simpa using h
      | bool b => simpa using h
      | num k => simpa using h
      | arr xs => simpa using h
      | obj fs => simpa using h
    · simpa using h

/-- C4: no cursor is ever fetched twice.  Part one: the trace of recorded
cursors stays duplicate-free through any run.  Part two: a cursor already
recorded stops the loop at once, before any fetch.  Part three: the loop
stops at once when the continuation test fails.  Part four: the
continuation test holds exactly for a nonempty string cursor that is not
the terminal sentinel, while any caller-supplied positive maximum that
has been reached stops it. -/
theorem C4_cursor_cycle_guard :
    (∀ pins maxPins fuel bookmark collected trace callIdx, trace.Nodup →
      ((paginateLoop pins maxPins fuel bookmark collected trace callIdx).2).Nodup) ∧
    (∀ pins maxPins fuel s collected trace callIdx, s ∈ trace →
      paginateLoop pins maxPins (fuel + 1) (.str s) collected trace callIdx =
        (.ok collected, trace)) ∧
    (∀ pins maxPins fuel bookmark collected trace callIdx,
      canContinuePagination bookmark maxPins collected.length = false →
      paginateLoop pins maxPins (fuel + 1) bookmark collected trace callIdx =
        (.ok collected, trace)) ∧
    (∀ bookmark maxPins count, canContinuePagination bookmark maxPins count = true ↔
      (¬ (maxPins > 0 ∧ (count : Int) ≥ maxPins) ∧
       ∃ s, bookmark = .str s ∧ ¬ s = [] ∧ ¬ s = "-end-".data)) := by
  refine ⟨fun pins maxPins => paginateLoop_trace_nodup pins maxPins, ?_, ?_, ?_⟩
  · intro pins maxPins fuel s collected trace callIdx hmem
    unfold paginateLoop
    split
    · dsimp only
      rw [if_pos (show trace.contains s = true by simpa using hmem)]
    · rfl
  · intro pins maxPins fuel bookmark collected trace callIdx hstop
    unfold paginateLoop
    split
    · rename_i hcond; rw [hstop] at hcond; cases hcond
    · rfl
  · intro bookmark maxPins count
    constructor
    · intro h
      unfold canContinuePagination at h
      split at h
      · cases h
      · rename_i hmax
        cases bookmark with
        | str s =>
          dsimp only at h
          refine ⟨by simpa using hmax, s, rfl, ?_, ?_⟩
          · intro hnil
            rw [if_pos hnil] at h
            cases h
          · intro hend
            by_cases hnil : s = []
            · rw [if_pos hnil] at h; cases h
            · rw [if_neg hnil, if_pos hend] at h; cases h
        | null => cases h
        | bool b => cases h
        | num k => cases h
        | arr xs => cases h
        | obj fs => cases h
    · rintro ⟨hmax, s, hs, h1, h2⟩
      subst hs
      unfold canContinuePagination
      rw [if_neg (by simpa using hmax)]
      dsimp only
      rw [if_neg h1, if_neg h2]

set_option maxRecDepth 40000 in
/-- C4, witness: in the world whose page-2 bookmark equals page-1's B1,
exactly one cursor is fetched, the trace is duplicate-free, and the
continuation test accepted B1. -/
theorem C4_witness :
    ((paginateLoop repeatingBookmarkWorld.pins 0 10 (.str "B1".data) [] [] 0).2).Nodup ∧
    (paginateLoop repeatingBookmarkWorld.pins 0 10 (.str "B1".data) [] [] 0).2 = ["B1".data] ∧
    canContinuePagination (.str "B1".data) 0 0 = true :=
  ⟨C4_cursor_cycle_guard.1 repeatingBookmarkWorld.pins 0 10 (.str "B1".data) [] [] 0 (by decide),
   by decide,
   (C4_cursor_cycle_guard.2.2.2 (.str "B1".data) 0 0).mpr
     ⟨by decide, "B1".data, rfl, by decide, by decide⟩⟩

/-! ## C6: discoveredCount versus the truncated list -/

set_option maxRecDepth 40000 in
/-- C6, counterexample: with two unique pins discovered and a maximum of
one, the returned discoveredCount is 1 (the truncated length), not the
pre-truncation count 2 the claim requires. -/
theorem C6_counterexample :
    (dedupeProfileUrls (extractPinUrlsFromHtml fallbackProfileHtml)).length = 2 ∧
    collectProfilePinUrls fallbackProfileWorld "https://www.pinterest.com/user1/".data 1 10 =
      .ok { profile_url := "https://www.pinterest.com/user1/".data,
            profile_username := "user1".data,
            pin_urls := ["https://www.pinterest.com/pin/111/".data],
            discovered_count := 1 } := by decide

/-- C6, amended: discoveredCount always equals the length of the returned
itemUrls list; both are computed after deduplication and after truncation
to any caller-supplied positive maximum, so discoveredCount never records
the pre-truncation tally. -/
theorem C6_amended (w : ProfileWorld) (profileUrl : Chars) (maxPins : Int) (fuel : Nat)
    (r : ProfileCollectionResult)
    (h : collectProfilePinUrls w profileUrl maxPins fuel = .ok r) :
    r.discovered_count = r.pin_urls.length := by
  unfold collectProfilePinUrls at h
  dsimp only at h
  split at h
  · cases h
  · split at h
    · cases h
    · split at h
      · cases h
      · split at h
        · cases h
        · cases h
        · split at h
          · split at h
            · cases h
            · cases h
              rfl
          · split at h
            · cases h
            · cases h
              rfl
          · split at h
            · cases h
            · split at h
              · cases h
              · cases h
                rfl

set_option maxRecDepth 40000 in
/-- C6, witness for the amended theorem. -/
theorem C6_witness :
    ({ profile_url := "https://www.pinterest.com/user1/".data,
       profile_username := "user1".data,
       pin_urls := ["https://www.pinterest.com/pin/111/".data],
       discovered_count := 1 } : ProfileCollectionResult).discovered_count =
      ({ profile_url := "https://www.pinterest.com/user1/".data,
         profile_username := "user1".data,
         pin_urls := ["https://www.pinterest.com/pin/111/".data],
         discovered_count := 1 } : ProfileCollectionResult).pin_urls.length :=
  C6_amended fallbackProfileWorld "https://www.pinterest.com/user1/".data 1 10 _ (by decide)

/-! ## C2: the image-only private-API scenario -/

set_option maxRecDepth 40000 in
/-- C2, counterexample: the image-only payload yields two candidates, not
exactly one; variant expansion adds a synthesized originals URL. -/
theorem C2_counterexample :
    fetchPinApiCandidates (.json imageOnlyApiPayload) "123".data =
      .ok [imageOnlyOriginalsCandidate, imageOnly736Candidate] ∧
    ¬ ([imageOnlyOriginalsCandidate, imageOnly736Candidate].length = 1) := by decide

set_option maxRecDepth 40000 in
/-- C2, amended: the image-only payload yields exactly two image
candidates: the 736x original, whose URL's first path segment is 736x,
preceded by the synthesized originals variant; scoring is total on this
image-only payload, assigning 10300 and 2772. -/
theorem C2_amended :
    fetchPinApiCandidates (.json imageOnlyApiPayload) "123".data =
      .ok [imageOnlyOriginalsCandidate, imageOnly736Candidate] ∧
    (pathSegments (urlparse imageOnly736Candidate.url).path).head? = some "736x".data ∧
    (pathSegments (urlparse imageOnlyOriginalsCandidate.url).path).head? =
      some "originals".data ∧
    imageOnlyOriginalsCandidate.media_type = "image" ∧
    imageOnly736Candidate.media_type = "image" ∧
    imageOnlyOriginalsCandidate.quality_score = 10300 ∧
    imageOnly736Candidate.quality_score = 2772 := by decide

/-! ## C3: the originals variant and its rank -/

theorem splitAll_ne_nil (c : Char) (l : Chars) : ¬ splitAll c l = [] := by
  cases l with
  | nil => simp [splitAll]
  | cons x xs =>
    unfold splitAll
    rcases h : splitAll c xs with _ | ⟨h1, t1⟩
    · simp [h]
    · simp only [h]
      split <;> simp

theorem splitAll_cons_self (c : Char) (l : Chars) :
    splitAll c (c :: l) = [] :: splitAll c l := by
  have hgo : splitAll c (c :: l) =
      (match splitAll c l with
       | [] => [[]]
       | hd :: tl => if c = c then [] :: hd :: tl else (c :: hd) :: tl) := rfl
  rw [hgo]
  rcases h : splitAll c l with _ | ⟨h1, t1⟩
  · exact absurd h (splitAll_ne_nil c l)
  · simp [h]

theorem splitAll_cons_ne {x c : Char} (hx : ¬ x = c) (l : Chars) {hd : Chars}
    {tl : List Chars} (h : splitAll c l = hd :: tl) :
    splitAll c (x :: l) = (x :: hd) :: tl := by
  unfold splitAll
  rw [h]
  simp [hx]

theorem splitAll_append {c : Char} (pre : Chars) (hpre : c ∉ pre) (rest : Chars) :
    splitAll c (pre ++ c :: rest) = pre :: splitAll c rest := by
  induction pre with
  | nil => simpa using splitAll_cons_self c rest
  | cons x xs ih =>
    have hx : ¬ x = c := fun he => hpre (he ▸ List.mem_cons_self x xs)
    have hxs : c ∉ xs := fun hm => hpre (List.mem_cons_of_mem _ hm)
    exact splitAll_cons_ne hx _ (ih hxs)

theorem containsSub_of_isPrefixOf {pat l : Chars} (h : pat.isPrefixOf l = true) :
    containsSub pat l = true := by
  cases l with
  | nil =>
    cases pat with
    | nil => rfl
    | cons p ps => simp [List.isPrefixOf] at h
  | cons c rest => simp [containsSub, h]

theorem containsSub_prefix_append (pat x : Chars) :
    containsSub pat (pat ++ x) = true :=
  containsSub_of_isPrefixOf (List.isPrefixOf_iff_prefix.mpr (List.prefix_append pat x))

/-- The image score when the 9000-point originals bonus cannot fire. -/
theorem scoreImage_upper_no_orig (url hint : Chars)
    (h3 : containsSub "/originals/".data (lowerChars (urlparse url).path) = false)
    (h5 : ¬ lowerChars hint = "orig".data) :
    scoreImage url hint ≤ 1300 + imageSizeBonus (lowerChars (urlparse url).path) := by
  unfold scoreImage
  dsimp only
  rw [if_neg (by simp [h3, h5])]
  split_ifs <;> omega

/-- The width-plus-height bonus of a path whose first segment is 236x. -/
theorem imageSizeBonus_236x {p : Chars} {rest : List Chars}
    (h : pathSegments p = "236x".data :: rest) : imageSizeBonus p = 472 := by
  unfold imageSizeBonus
  simp only [h]
  decide

set_option maxRecDepth 40000 in
/-- C3, counterexample: resolving the CDN URL with path /236x/abc/def.jpg
does synthesize the /originals/abc/def.jpg candidate, but the final
ranked output orders the 236x candidate first: the direct fast path's
size hint orig grants the 236x variant the same 9000-point bonus plus
its 472-point size bonus. -/
theorem C3_counterexample :
    resolveMediaCandidates offlineResolverWorld "https://i.pinimg.com/236x/abc/def.jpg".data =
      .ok [{ url := "https://i.pinimg.com/236x/abc/def.jpg".data, media_type := "image",
             quality_score := 10772, source := "direct" },
           { url := "https://i.pinimg.com/originals/abc/def.jpg".data, media_type := "image",
             quality_score := 10300, source := "direct" }] := by decide

/-- C3, amended: for a first-party CDN image URL whose path segments are
236x followed by at least one more segment and whose path holds no
originals marker, variant expansion synthesizes the originals URL and
inserts it before the original in the variant list; in the ranked output
built with any size hint other than orig (as in API and HTML extraction)
the originals candidate is ordered ahead of the 236x candidate — under
the direct fast path's orig hint the order is reversed, as the
counterexample shows.  The last hypothesis asks that the rebuilt URL
re-parse to its components, which every well-formed CDN URL satisfies. -/
theorem C3_amended (url sizeHint : Chars) (source : String) (t : Chars)
    (ts rest' : List Chars)
    (h1 : isPinimgHost (urlparse url).netloc = true)
    (h2 : pathSegments (urlparse url).path = "236x".data :: t :: ts)
    (h2l : pathSegments (lowerChars (urlparse url).path) = "236x".data :: rest')
    (h3 : containsSub "/originals/".data (lowerChars (urlparse url).path) = false)
    (h5 : ¬ lowerChars sizeHint = "orig".data)
    (h4 : urlparse (originalsRebuiltUrl url (t :: ts)) =
      withPath (urlparse url) ('/' :: List.intercalate ['/'] ("originals".data :: t :: ts))) :
    pinimgVariants url = [originalsRebuiltUrl url (t :: ts), url] ∧
    sortAndDedupe (buildCandidates url "image" source sizeHint) =
      [⟨originalsRebuiltUrl url (t :: ts), "image",
        scoreImage (originalsRebuiltUrl url (t :: ts)) sizeHint, source⟩,
       ⟨url, "image", scoreImage url sizeHint, source⟩] ∧
    scoreImage url sizeHint < scoreImage (originalsRebuiltUrl url (t :: ts)) sizeHint := by
  set ps := urlparse url with hps
  set rp : Chars := '/' :: List.intercalate ['/'] ("originals".data :: t :: ts) with hrp
  set ru : Chars := originalsRebuiltUrl url (t :: ts) with hru
  have hrpForm : rp = "/originals/".data ++ List.intercalate ['/'] (t :: ts) := by
    rw [hrp]
    rw [show List.intercalate ['/'] ("originals".data :: t :: ts) =
          "originals".data ++ ['/'] ++ List.intercalate ['/'] (t :: ts) by
        simp [List.intercalate, List.intersperse]]
    simp
  have hrpSegs : pathSegments rp =
      "originals".data ::
        (splitAll '/' (List.intercalate ['/'] (t :: ts))).filter (fun s => ¬ s = []) := by
    have hsplit : splitAll '/' rp =
        [] :: "originals".data :: splitAll '/' (List.intercalate ['/'] (t :: ts)) := by
      rw [hrpForm]
      rw [show ("/originals/".data ++ List.intercalate ['/'] (t :: ts)) =
            '/' :: ("originals".data ++ '/' :: List.intercalate ['/'] (t :: ts)) from rfl]
      rw [splitAll_cons_self, splitAll_append "originals".data (by decide)]
    unfold pathSegments
    rw [hsplit]
    simp
  have hpathRu : (urlparse ru).path = rp := by rw [hru, h4]; rfl
  have hnetRu : (urlparse ru).netloc = ps.netloc := by rw [hru, h4]; rfl
  have hne : ¬ ru = url := by
    intro he
    have hpeq : ps.path = rp := by
      have : urlparse url = withPath ps rp := by
        rw [← he, hru, h4, hps]
      rw [hps, this]
      rfl
    have hcontra : ("236x".data : Chars) = "originals".data := by
      have hsg : pathSegments ps.path = pathSegments rp := by rw [hpeq]
      rw [h2, hrpSegs] at hsg
      exact ((List.cons.injEq _ _ _ _).mp hsg).1
    exact absurd hcontra (by decide)
  have hcontains : containsSub "/originals/".data (lowerChars (urlparse ru).path) = true := by
    rw [hpathRu, hrpForm]
    unfold lowerChars
    rw [List.map_append,
      show List.map Char.toLower "/originals/".data = "/originals/".data from by decide]
    exact containsSub_prefix_append _ _
  have hscoreOrig : 4300 ≤ scoreImage ru sizeHint :=
    scoreImage_lower_bound ru sizeHint hcontains (by rw [hnetRu]; exact h1)
  have hscore236 : scoreImage url sizeHint ≤ 1772 := by
    have hup := scoreImage_upper_no_orig url sizeHint h3 h5
    rw [imageSizeBonus_236x h2l] at hup
    omega
  have hlt : scoreImage url sizeHint < scoreImage ru sizeHint := by omega
  have hvariants : pinimgVariants url = [ru, url] := by
    unfold pinimgVariants
    rw [← hps, if_neg (by simp [h1])]
    simp only [h2]
    rw [if_pos (by decide)]
    have hcon : ¬ (([ru] : List Chars).contains url = true) := by
      intro hc
      have : url = ru := by simpa using hc
      exact hne this.symm
    show dedupeUrlList [ru, url] = [ru, url]
    unfold dedupeUrlList dedupeUrlListGo
    rw [if_neg (by simp)]
    unfold dedupeUrlListGo
    rw [if_neg hcon]
    rfl
  refine ⟨hvariants, ?_, hlt⟩
  have hbuild : buildCandidates url "image" source sizeHint =
      [⟨ru, "image", scoreImage ru sizeHint, source⟩,
       ⟨url, "image", scoreImage url sizeHint, source⟩] := by
    unfold buildCandidates
    rw [if_pos rfl, hvariants]
    rfl
  rw [hbuild]
  have hkeys : ¬ candKey ⟨ru, "image", scoreImage ru sizeHint, source⟩ =
      candKey ⟨url, "image", scoreImage url sizeHint, source⟩ := by
    simp only [candKey, Prod.mk.injEq]
    intro hk
    exact hne hk.2
  unfold sortAndDedupe
  simp only [List.foldl_cons, List.foldl_nil, dictUpsert]
  rw [if_neg hkeys]
  simp only [List.insertionSort, List.orderedInsert]
  rw [if_pos (show scoreGe ⟨ru, "image", scoreImage ru sizeHint, source⟩
    ⟨url, "image", scoreImage url sizeHint, source⟩ from le_of_lt hlt)]

set_option maxRecDepth 40000 in
/-- C3, witness for the amended theorem at a concrete CDN URL with an
API-style size hint. -/
theorem C3_witness :
    pinimgVariants "https://i.pinimg.com/236x/abc/def.jpg".data =
      [originalsRebuiltUrl "https://i.pinimg.com/236x/abc/def.jpg".data
        ["abc".data, "def.jpg".data], "https://i.pinimg.com/236x/abc/def.jpg".data] ∧
    sortAndDedupe (buildCandidates "https://i.pinimg.com/236x/abc/def.jpg".data
        "image" "api-images" "236x".data) =
      [⟨originalsRebuiltUrl "https://i.pinimg.com/236x/abc/def.jpg".data
          ["abc".data, "def.jpg".data], "image",
        scoreImage (originalsRebuiltUrl "https://i.pinimg.com/236x/abc/def.jpg".data
          ["abc".data, "def.jpg".data]) "236x".data, "api-images"⟩,
       ⟨"https://i.pinimg.com/236x/abc/def.jpg".data, "image",
        scoreImage "https://i.pinimg.com/236x/abc/def.jpg".data "236x".data,
        "api-images"⟩] ∧
    scoreImage "https://i.pinimg.com/236x/abc/def.jpg".data "236x".data <
      scoreImage (originalsRebuiltUrl "https://i.pinimg.com/236x/abc/def.jpg".data
        ["abc".data, "def.jpg".data]) "236x".data :=
  C3_amended "https://i.pinimg.com/236x/abc/def.jpg".data "236x".data "api-images"
    "abc".data ["def.jpg".data] ["abc".data, "def.jpg".data]
    (by decide) (by decide) (by decide) (by decide) (by decide) (by decide)



/-! ## C1: ranked output is sorted, deduplicated, and keeps group maxima -/

theorem dictUpsert_mem {m : List MediaCandidate} {c d : MediaCandidate}
    (h : d ∈ dictUpsert m c) : d = c ∨ d ∈ m := by
  induction m with
  | nil => simpa [dictUpsert] using h
  | cons e rest ih =>
    unfold dictUpsert at h
    split at h
    · rcases List.mem_cons.mp h with heq | hmem
      · by_cases hs : c.quality_score > e.quality_score
        · rw [if_pos hs] at heq
          exact Or.inl heq
        · rw [if_neg hs] at heq
          exact Or.inr (by simp [heq])
      · exact Or.inr (List.mem_cons_of_mem _ hmem)
    · rcases List.mem_cons.mp h with heq | hmem
      · exact Or.inr (by simp [heq])
      · rcases ih hmem with h' | h'
        · exact Or.inl h'
        · exact Or.inr (List.mem_cons_of_mem _ h')

theorem dictUpsert_key_mem {m : List MediaCandidate} {k : String × Chars}
    {c : MediaCandidate} (h : k ∈ (dictUpsert m c).map candKey) :
    k = candKey c ∨ k ∈ m.map candKey := by
  rcases List.mem_map.mp h with ⟨d, hd, hk⟩
  rcases dictUpsert_mem hd with h' | h'
  · exact Or.inl (by rw [← hk, h'])
  · exact Or.inr (hk ▸ List.mem_map_of_mem candKey h')

theorem dictUpsert_keys_nodup {m : List MediaCandidate} (c : MediaCandidate)
    (h : (m.map candKey).Nodup) : ((dictUpsert m c).map candKey).Nodup := by
  induction m with
  | nil => simp [dictUpsert]
  | cons e rest ih =>
    unfold dictUpsert
    split
    · rename_i hkey
      have hpick : candKey (if c.quality_score > e.quality_score then c else e) = candKey e := by
        split
        · exact hkey.symm
        · rfl
      simpa [hpick] using h
    · rename_i hkey
      simp only [List.map_cons, List.nodup_cons] at h ⊢
      refine ⟨fun hmem => ?_, ih h.2⟩
      rcases dictUpsert_key_mem hmem with h' | h'
      · exact hkey h'
      · exact h.1 h'

theorem foldl_dictUpsert_keys_nodup (l : List MediaCandidate) :
    ∀ acc, ((acc.map candKey).Nodup) →
      (((l.foldl dictUpsert acc).map candKey).Nodup) := by
  induction l with
  | nil => intro acc h; simpa using h
  | cons x xs ih => intro acc h; exact ih _ (dictUpsert_keys_nodup x h)

theorem foldl_dictUpsert_mem {l : List MediaCandidate} :
    ∀ {acc d}, d ∈ l.foldl dictUpsert acc → d ∈ acc ∨ d ∈ l := by
  induction l with
  | nil => intro acc d h; exact Or.inl (by simpa using h)
  | cons x xs ih =>
    intro acc d h
    rcases ih h with h' | h'
    · rcases dictUpsert_mem h' with h'' | h''
      · exact Or.inr (by simp [h''])
      · exact Or.inl h''
    · exact Or.inr (List.mem_cons_of_mem _ h')

theorem dictUpsert_self_entry (m : List MediaCandidate) (c : MediaCandidate) :
    ∃ d ∈ dictUpsert m c, candKey d = candKey c ∧ c.quality_score ≤ d.quality_score := by
  induction m with
  | nil => exact ⟨c, by simp [dictUpsert], rfl, le_refl _⟩
  | cons e rest ih =>
    unfold dictUpsert
    split
    · rename_i hkey
      by_cases hs : c.quality_score > e.quality_score
      · exact ⟨c, by simp [hs], rfl, le_refl _⟩
      · exact ⟨e, by simp [hs], hkey, by omega⟩
    · rcases ih with ⟨d, hd, hk, hscore⟩
      exact ⟨d, List.mem_cons_of_mem _ hd, hk, hscore⟩

theorem dictUpsert_preserves_entry {m : List MediaCandidate} (c : MediaCandidate)
    {d₀ : MediaCandidate} (h : d₀ ∈ m) :
    ∃ d ∈ dictUpsert m c, candKey d = candKey d₀ ∧ d₀.quality_score ≤ d.quality_score := by
  induction m with
  | nil => cases h
  | cons e rest ih =>
    unfold dictUpsert
    rcases List.mem_cons.mp h with rfl | hrest
    · split
      · rename_i hkey
        by_cases hs : c.quality_score > d₀.quality_score
        · exact ⟨c, by simp [hs], hkey.symm, by omega⟩
        · exact ⟨d₀, by simp [hs], rfl, le_refl _⟩
      · exact ⟨d₀, by simp, rfl, le_refl _⟩
    · split
      · exact ⟨d₀, List.mem_cons_of_mem _ hrest, rfl, le_refl _⟩
      · rcases ih hrest with ⟨d, hd, hk, hscore⟩
        exact ⟨d, List.mem_cons_of_mem _ hd, hk, hscore⟩

theorem foldl_dictUpsert_preserves (l : List MediaCandidate) :
    ∀ acc (d₀ : MediaCandidate), d₀ ∈ acc →
      ∃ d ∈ l.foldl dictUpsert acc,
        candKey d = candKey d₀ ∧ d₀.quality_score ≤ d.quality_score := by
  induction l with
  | nil => intro acc d₀ h; exact ⟨d₀, by simpa using h, rfl, le_refl _⟩
  | cons x xs ih =>
    intro acc d₀ h
    rcases dictUpsert_preserves_entry x h with ⟨d₁, hd₁, hk₁, hs₁⟩
    rcases ih _ d₁ hd₁ with ⟨d, hd, hk, hs⟩
    exact ⟨d, hd, by rw [hk, hk₁], le_trans hs₁ hs⟩

theorem foldl_dictUpsert_covers (l : List MediaCandidate) :
    ∀ acc (c : MediaCandidate), c ∈ l →
      ∃ d ∈ l.foldl dictUpsert acc,
        candKey d = candKey c ∧ c.quality_score ≤ d.quality_score := by
  induction l with
  | nil => intro acc c h; cases h
  | cons x xs ih =>
    intro acc c h
    rcases List.mem_cons.mp h with rfl | hxs
    · rcases dictUpsert_self_entry acc c with ⟨d₁, hd₁, hk₁, hs₁⟩
      rcases foldl_dictUpsert_preserves xs _ d₁ hd₁ with ⟨d, hd, hk, hs⟩
      exact ⟨d, hd, by rw [hk, hk₁], le_trans hs₁ hs⟩
    · exact ih _ c hxs

/-- C1: output of the ranking step is sorted non-increasingly by score,
holds no two candidates with the same (media type, url) key, keeps for
every input key an input candidate of that key whose score dominates the
whole key group, and every list the resolver returns inherits the sorted
and deduplicated shape. -/
theorem C1_sort_dedupe_invariants :
    (∀ l, List.Pairwise (fun a b => b.quality_score ≤ a.quality_score) (sortAndDedupe l)) ∧
    (∀ l, ((sortAndDedupe l).map candKey).Nodup) ∧
    (∀ l c, c ∈ l → ∃ d, d ∈ sortAndDedupe l ∧ d ∈ l ∧ candKey d = candKey c ∧
      ∀ e ∈ l, candKey e = candKey c → e.quality_score ≤ d.quality_score) ∧
    (∀ w pinUrl r, resolveMediaCandidates w pinUrl = .ok r →
      List.Pairwise (fun a b => b.quality_score ≤ a.quality_score) r ∧
      (r.map candKey).Nodup) := by
  have hsorted : ∀ l, List.Pairwise (fun a b => b.quality_score ≤ a.quality_score)
      (sortAndDedupe l) := by
    intro l
    have := List.sorted_insertionSort scoreGe (l.foldl dictUpsert [])
    exact this.imp (fun h => h)
  have hnodup : ∀ l, ((sortAndDedupe l).map candKey).Nodup := by
    intro l
    have hperm : (sortAndDedupe l).Perm (l.foldl dictUpsert []) :=
      List.perm_insertionSort scoreGe (l.foldl dictUpsert [])
    have hbase : ((l.foldl dictUpsert []).map candKey).Nodup :=
      foldl_dictUpsert_keys_nodup l [] (by simp)
    exact ((hperm.map candKey).nodup_iff).mpr hbase
  refine ⟨hsorted, hnodup, ?_, ?_⟩
  · intro l c hc
    have hperm : (sortAndDedupe l).Perm (l.foldl dictUpsert []) :=
      List.perm_insertionSort scoreGe (l.foldl dictUpsert [])
    rcases foldl_dictUpsert_covers l [] c hc with ⟨d, hd, hk, hs⟩
    have hdout : d ∈ sortAndDedupe l := (hperm.mem_iff).mpr hd
    have hdin : d ∈ l := by
      rcases foldl_dictUpsert_mem hd with h | h
      · cases h
      · exact h
    refine ⟨d, hdout, hdin, hk, ?_⟩
    intro e he hke
    rcases foldl_dictUpsert_covers l [] e he with ⟨d', hd', hk', hs'⟩
    have hd'out : d' ∈ sortAndDedupe l := (hperm.mem_iff).mpr hd'
    have : d' = d :=
      List.inj_on_of_nodup_map (hnodup l) hd'out hdout (by rw [hk', hke, hk])
    exact this ▸ hs'
  · intro w pinUrl r h
    have hsub : ∀ base : List MediaCandidate,
        r.Sublist (sortAndDedupe base) →
        List.Pairwise (fun a b => b.quality_score ≤ a.quality_score) r ∧
        (r.map candKey).Nodup := by
      intro base hs
      exact ⟨(hsorted base).sublist hs, ((hs.map candKey).nodup (hnodup base))⟩
    unfold resolveMediaCandidates at h
    dsimp only at h
    split at h
    · cases h
    · split at h
      · cases h
        exact hsub _ (List.Sublist.refl _)
      · split at h
        · cases h
        · split at h
          · cases h
            exact hsub _ (List.Sublist.refl _)
          · split at h
            · cases h
            · split at h
              · cases h
                exact hsub _ (List.Sublist.refl _)
              · split at h
                · cases h
                · split at h
                  · rename_i hpref
                    cases h
                    exact hsub _ (List.filter_sublist _)
                  · split at h
                    · cases h
                    · cases h
                      exact hsub _ (List.Sublist.refl _)

set_option maxRecDepth 40000 in
/-- C1, witness: a two-element list sharing one key, and a resolver run
on the direct fast path. -/
theorem C1_witness :
    (∃ d, d ∈ sortAndDedupe
        [⟨"https://u".data, "image", 5, "s"⟩, ⟨"https://u".data, "image", 9, "s"⟩] ∧
      d ∈ [⟨"https://u".data, "image", 5, "s"⟩, ⟨"https://u".data, "image", 9, "s"⟩] ∧
      candKey d = candKey ⟨"https://u".data, "image", 5, "s"⟩ ∧
      ∀ e ∈ [(⟨"https://u".data, "image", 5, "s"⟩ : MediaCandidate),
             ⟨"https://u".data, "image", 9, "s"⟩],
        candKey e = candKey ⟨"https://u".data, "image", 5, "s"⟩ →
          e.quality_score ≤ d.quality_score) ∧
    (List.Pairwise (fun a b => b.quality_score ≤ a.quality_score)
      [(⟨"https://i.pinimg.com/originals/aa/bb/cc.jpg".data, "image", 10300, "direct"⟩ :
        MediaCandidate)] ∧
     ([(⟨"https://i.pinimg.com/originals/aa/bb/cc.jpg".data, "image", 10300, "direct"⟩ :
        MediaCandidate)].map candKey).Nodup) :=
  ⟨C1_sort_dedupe_invariants.2.2.1
      [⟨"https://u".data, "image", 5, "s"⟩, ⟨"https://u".data, "image", 9, "s"⟩]
      ⟨"https://u".data, "image", 5, "s"⟩ (by simp),
   C1_sort_dedupe_invariants.2.2.2 offlineResolverWorld
      "https://i.pinimg.com/originals/aa/bb/cc.jpg".data
      [⟨"https://i.pinimg.com/originals/aa/bb/cc.jpg".data, "image", 10300, "direct"⟩]
      (by decide)⟩

/-! ## C5: resolution outcomes and the typed error -/

theorem dictUpsert_ne_nil (m : List MediaCandidate) (c : MediaCandidate) :
    ¬ dictUpsert m c = [] := by
  cases m with
  | nil => simp [dictUpsert]
  | cons e rest =>
    unfold dictUpsert
    split <;> simp

theorem foldl_dictUpsert_ne_nil (l : List MediaCandidate) :
    ∀ acc, ¬ acc = [] → ¬ l.foldl dictUpsert acc = [] := by
  induction l with
  | nil => intro acc h; simpa using h
  | cons c t ih =>
    intro acc _
    simpa using ih (dictUpsert acc c) (dictUpsert_ne_nil acc c)

/-- The ranking step returns an empty list exactly on empty input: the
by_key dictionary never drops every entry, and sorting is a permutation. -/
theorem sortAndDedupe_eq_nil (l : List MediaCandidate) :
    sortAndDedupe l = [] ↔ l = [] := by
  constructor
  · intro h
    cases l with
    | nil => rfl
    | cons c t =>
      exfalso
      have hperm : (sortAndDedupe (c :: t)).Perm ((c :: t).foldl dictUpsert []) :=
        List.perm_insertionSort scoreGe ((c :: t).foldl dictUpsert [])
      rw [h] at hperm
      have hnil : (c :: t).foldl dictUpsert [] = [] := List.Perm.eq_nil hperm.symm
      refine foldl_dictUpsert_ne_nil t [c] (by simp) ?_
      simpa [dictUpsert] using hnil
  · intro h
    subst h
    rfl

theorem dedupeUrlList_cons_ne_nil (v : Chars) (rest : List Chars) :
    ¬ dedupeUrlList (v :: rest) = [] := by
  simp [dedupeUrlList, dedupeUrlListGo]

/-- _pinimg_variants always keeps at least the input URL. -/
theorem pinimgVariants_ne_nil (url : Chars) : ¬ pinimgVariants url = [] := by
  unfold pinimgVariants
  dsimp only
  split
  · simp
  · split
    · simp
    · intro h
      split at h
      · exact dedupeUrlList_cons_ne_nil _ _ h
      · exact dedupeUrlList_cons_ne_nil _ _ h

/-- _build_candidates always emits at least one candidate. -/
theorem buildCandidates_ne_nil (url : Chars) (mediaType source : String) (sizeHint : Chars) :
    ¬ buildCandidates url mediaType source sizeHint = [] := by
  unfold buildCandidates
  intro h
  split at h
  · rw [List.map_eq_nil_iff] at h
    exact pinimgVariants_ne_nil url h
  · exact List.noConfusion h

theorem sortAndDedupe_build_ne_nil (url : Chars) (mt source : String) (sizeHint : Chars) :
    ¬ sortAndDedupe (buildCandidates url mt source sizeHint) = [] := by
  intro h
  exact buildCandidates_ne_nil url mt source sizeHint ((sortAndDedupe_eq_nil _).mp h)

set_option maxRecDepth 40000 in
/-- C5, counterexample: the claimed dichotomy (non-empty list or typed
ResolutionError) fails; when the page GET raises, the uncaught requests
error — not a ResolutionError — propagates out of resolve_media_candidates. -/
theorem C5_counterexample :
    resolveMediaCandidates offlineResolverWorld "https://www.pinterest.com/pin/123/".data
      = .error .network ∧
    (∀ m, ¬ ResolveErr.network = ResolveErr.resolution m) :=
  ⟨by decide, fun m h => ResolveErr.noConfusion h⟩

/-- C5, amended: resolution never returns an empty list, and — untyped
network or JSON-shape errors aside — the typed ResolutionError is raised
exactly when the normalized input fails http(s) validation or when every
strategy (direct, redirect, private API, HTML scraping plus the oEmbed
merge) yields no candidate. -/
theorem C5_amended (w : ResolverWorld) (pinUrl : Chars) :
    (∀ r, resolveMediaCandidates w pinUrl = .ok r → ¬ r = []) ∧
    ((∃ m, resolveMediaCandidates w pinUrl = .error (.resolution m)) ↔
      (¬ isValidHttpUrl (normalizeUrl pinUrl) = true ∨
        ((if isPinimgHost (urlparse (normalizeUrl pinUrl)).netloc then
            inferMediaTypeFromUrl (normalizeUrl pinUrl) else none) = none ∧
         ∃ resp, w.page = .ok resp ∧
           (if isPinimgHost (urlparse resp.url).netloc then
              inferMediaTypeFromUrl resp.url else none) = none ∧
           apiStrategyCandidates w (normalizeUrl pinUrl) resp = .ok [] ∧
           htmlStrategyCandidates w resp = .ok []))) := by
  constructor
  · intro r h
    unfold resolveMediaCandidates at h
    dsimp only at h
    split at h
    · cases h
    · split at h
      · cases h
        exact sortAndDedupe_build_ne_nil _ _ _ _
      · split at h
        · cases h
        · split at h
          · cases h
            exact sortAndDedupe_build_ne_nil _ _ _ _
          · split at h
            · cases h
            · split at h
              · rename_i hne
                cases h
                intro hnil
                exact hne ((sortAndDedupe_eq_nil _).mp hnil)
              · split at h
                · cases h
                · split at h
                  · rename_i hpref
                    cases h
                    exact hpref
                  · split at h
                    · cases h
                    · rename_i hded
                      cases h
                      exact hded
  · constructor
    · rintro ⟨m, h⟩
      unfold resolveMediaCandidates at h
      dsimp only at h
      split at h
      · rename_i hval
        exact Or.inl hval
      · split at h
        · cases h
        · rename_i hdir
          split at h
          · cases h
          · rename_i resp hpage
            split at h
            · cases h
            · rename_i hred
              split at h
              · cases h
              · rename_i apiCandidates happi
                split at h
                · cases h
                · rename_i hne
                  have hapi : apiCandidates = [] := not_not.mp hne
                  split at h
                  · cases h
                  · rename_i hc hhtml
                    split at h
                    · cases h
                    · split at h
                      · rename_i hded
                        exact Or.inr ⟨hdir, resp, hpage, hred, hapi ▸ happi,
                          ((sortAndDedupe_eq_nil hc).mp hded) ▸ hhtml⟩
                      · cases h
    · intro hcase
      rcases hcase with hval | ⟨hdir, resp, hpage, hred, happi, hhtml⟩
      · exact ⟨"Invalid URL format.", by
          unfold resolveMediaCandidates
          dsimp only
          rw [if_pos hval]⟩
      · by_cases hval : isValidHttpUrl (normalizeUrl pinUrl) = true
        · refine ⟨"Could not detect image or video media on this Pinterest page.", ?_⟩
          unfold resolveMediaCandidates
          dsimp only
          rw [if_neg (not_not_intro hval), hdir]
          dsimp only
          rw [hpage]
          dsimp only
          rw [hred]
          dsimp only
          rw [happi]
          dsimp only
          rw [if_neg (not_not_intro rfl)]
          rw [hhtml]
          dsimp only
          rfl
        · exact ⟨"Invalid URL format.", by
            unfold resolveMediaCandidates
            dsimp only
            rw [if_pos hval]⟩

set_option maxRecDepth 40000 in
/-- C5, witness for the amended theorem: the direct fast path returns a
non-empty list, and the world whose page carries no media at all ends in
the typed ResolutionError. -/
theorem C5_witness :
    ¬ [(⟨"https://i.pinimg.com/originals/aa/bb/cc.jpg".data, "image", (10300 : Int), "direct"⟩ :
        MediaCandidate)] = [] ∧
    ∃ m, resolveMediaCandidates emptyPageResolverWorld "https://example.com/x".data
      = .error (.resolution m) :=
  ⟨(C5_amended offlineResolverWorld "https://i.pinimg.com/originals/aa/bb/cc.jpg".data).1
      [⟨"https://i.pinimg.com/originals/aa/bb/cc.jpg".data, "image", 10300, "direct"⟩]
      (by decide),
   ((C5_amended emptyPageResolverWorld "https://example.com/x".data).2).mpr
     (Or.inr ⟨by decide, ⟨"https://example.com/x".data, []⟩, rfl, by decide, by decide,
       by decide⟩)⟩

/-! ## C8: idempotence of the candidate normalizer -/

theorem mem_of_getLast?_eq {l : Chars} {c : Char} (h : l.getLast? = some c) : c ∈ l := by
  rcases List.mem_getLast?_eq_getLast (Option.mem_def.mpr h) with ⟨hne, heq⟩
  rw [heq]
  exact List.getLast_mem hne

theorem dropWhile_eq_self_of_head {p : Char → Bool} {l : Chars} {c : Char}
    (hl : l.head? = some c) (hc : p c = false) : l.dropWhile p = l := by
  cases l with
  | nil => rfl
  | cons x xs =>
    cases hl
    rw [List.dropWhile_cons, hc]
    simp

theorem rstripBy_eq_self_of_last {p : Char → Bool} {l : Chars} {c : Char}
    (hl : l.getLast? = some c) (hc : p c = false) : rstripBy p l = l := by
  have hrev : l.reverse.head? = some c := by
    rw [List.head?_reverse]
    exact hl
  unfold rstripBy
  rw [dropWhile_eq_self_of_head hrev hc, List.reverse_reverse]

theorem takeWhile_eq_self_of_all {p : Char → Bool} {l : Chars}
    (h : ∀ c ∈ l, p c = true) : l.takeWhile p = l := by
  induction l with
  | nil => rfl
  | cons x xs ih =>
    rw [List.takeWhile_cons, h x (List.mem_cons_self x xs)]
    simp only [if_true]
    rw [ih (fun c hc => h c (List.mem_cons_of_mem _ hc))]

/-- str.replace is the identity when the pattern head never occurs. -/
theorem replaceSubGo_eq_self {p0 : Char} {pr rep l : Chars} (fuel : Nat)
    (h : ∀ c ∈ l, ¬ c = p0) : replaceSubGo (p0 :: pr) rep fuel l = l := by
  induction fuel generalizing l with
  | zero => cases l <;> rfl
  | succ n ih =>
    cases l with
    | nil => rfl
    | cons x xs =>
      unfold replaceSubGo
      rw [if_neg]
      · rw [ih (fun c hc => h c (List.mem_cons_of_mem _ hc))]
      · intro hpre
        rw [List.isPrefixOf_cons₂] at hpre
        have hx : p0 = x := beq_iff_eq.mp ((Bool.and_eq_true _ _).mp hpre).1
        exact h x (List.mem_cons_self x xs) hx.symm

theorem replaceSub_eq_self {p0 : Char} {pr rep l : Chars}
    (h : ∀ c ∈ l, ¬ c = p0) : replaceSub (p0 :: pr) rep l = l :=
  replaceSubGo_eq_self l.length h

theorem splitScheme_http (t : Chars) :
    splitScheme ("http://".data ++ t) = ("http".data, '/' :: '/' :: t) := by
  simp [splitScheme, splitOnFirst, lowerChars, isSchemeChar]

theorem splitScheme_https (t : Chars) :
    splitScheme ("https://".data ++ t) = ("https".data, '/' :: '/' :: t) := by
  simp [splitScheme, splitOnFirst, lowerChars, isSchemeChar]

/-- urlsplit written without the sequenced pair destructurings. -/
theorem urlsplitD_eq (d l : Chars) :
    urlsplitD d l =
      { scheme := if (splitScheme l).1 = [] then d else (splitScheme l).1,
        netloc := (splitNetloc (splitScheme l).2).1,
        path := (splitQuery (splitHash (splitNetloc (splitScheme l).2).2).1).1,
        params := [],
        query := (splitQuery (splitHash (splitNetloc (splitScheme l).2).2).1).2,
        fragment := (splitHash (splitNetloc (splitScheme l).2).2).2 } := by
  unfold urlsplitD
  rcases h1 : splitScheme l with ⟨s, r1⟩
  rcases h2 : splitNetloc r1 with ⟨n, r2⟩
  rcases h3 : splitHash r2 with ⟨r3, f⟩
  rcases h4 : splitQuery r3 with ⟨p, q⟩
  simp [h1, h2, h3, h4]

theorem urlparseD_scheme (d l : Chars) : (urlparseD d l).scheme = (urlsplitD d l).scheme := by
  unfold urlparseD
  dsimp only

theorem urlsplitD_scheme_indep (d url : Chars) (h : ¬ (splitScheme url).1 = []) :
    urlsplitD d url = urlsplitD [] url := by
  rw [urlsplitD_eq, urlsplitD_eq, if_neg h, if_neg h]

/-- The default scheme of urlparse is irrelevant once the URL carries its
own scheme. -/
theorem urlparseD_scheme_indep (d url : Chars) (h : ¬ (splitScheme url).1 = []) :
    urlparseD d url = urlparse url := by
  unfold urlparse urlparseD
  rw [urlsplitD_scheme_indep d url h]

theorem urlparse_scheme_http (t : Chars) :
    (urlparse ("http://".data ++ t)).scheme = "http".data := by
  rw [urlparse, urlparseD_scheme, urlsplitD_eq, splitScheme_http]
  rfl

theorem urlparse_scheme_https (t : Chars) :
    (urlparse ("https://".data ++ t)).scheme = "https".data := by
  rw [urlparse, urlparseD_scheme, urlsplitD_eq, splitScheme_https]
  rfl

/-- urljoin leaves an absolute http(s) URL with a host unchanged whenever
the URL survives a parse-unparse round trip. -/
theorem urljoin_abs (base url : Chars)
    (hscheme : ¬ (splitScheme url).1 = [])
    (hhttp : (urlparse url).scheme = "http".data ∨ (urlparse url).scheme = "https".data)
    (hnet : ¬ (urlparse url).netloc = [])
    (hround : urlunparse (urlparse url) = url) :
    urljoin base url = url := by
  have hu : ¬ url = [] := by
    intro he
    apply hscheme
    rw [he]
    rfl
  by_cases hb : base = []
  · unfold urljoin
    rw [if_pos hb]
  · unfold urljoin
    rw [if_neg hb, if_neg hu]
    dsimp only
    rw [urlparseD_scheme_indep _ _ hscheme]
    by_cases hc : ¬ (urlparse url).scheme = (urlparseD [] base).scheme ∨
        ¬ usesRelative.contains (urlparse url).scheme
    · rw [if_pos hc]
    · rw [if_neg hc]
      have hcont : usesNetloc.contains (urlparse url).scheme = true := by
        rcases hhttp with h | h <;> rw [h] <;> decide
      rw [if_pos ⟨hcont, hnet⟩]
      exact hround

theorem isValidHttpUrl_of (url : Chars)
    (hhttp : (urlparse url).scheme = "http".data ∨ (urlparse url).scheme = "https".data)
    (hnet : ¬ (urlparse url).netloc = []) : isValidHttpUrl url = true := by
  unfold isValidHttpUrl
  dsimp only
  exact decide_eq_true ⟨hhttp, hnet⟩

/-- NORMALIZED_URL_RE matches an https URL whole when its body avoids the
disallowed class. -/
theorem normalizedUrlMatch_https (c : Char) (t : Chars)
    (hall : ∀ x ∈ c :: t, normalizedUrlDisallowed x = false) :
    normalizedUrlMatch ("https://".data ++ c :: t) = some ("https://".data ++ c :: t) := by
  unfold normalizedUrlMatch
  have htake : ("https://".data ++ c :: t).take 8 = "https://".data := by
    rw [show (8 : Nat) = "https://".data.length from rfl, List.take_left]
  have hdrop : ("https://".data ++ c :: t).drop 8 = c :: t := by
    rw [show (8 : Nat) = "https://".data.length from rfl, List.drop_left]
  rw [htake, hdrop]
  rw [if_pos (show lowerChars "https://".data = "https://".data from rfl)]
  dsimp only
  rw [takeWhile_eq_self_of_all (fun x hx => by simp [hall x hx])]
  rw [if_neg (by simp)]

/-- NORMALIZED_URL_RE matches an http URL whole when its body avoids the
disallowed class. -/
theorem normalizedUrlMatch_http (c : Char) (t : Chars)
    (hall : ∀ x ∈ c :: t, normalizedUrlDisallowed x = false) :
    normalizedUrlMatch ("http://".data ++ c :: t) = some ("http://".data ++ c :: t) := by
  unfold normalizedUrlMatch
  rw [if_neg (by simp [lowerChars])]
  have htake : ("http://".data ++ c :: t).take 7 = "http://".data := by
    rw [show (7 : Nat) = "http://".data.length from rfl, List.take_left]
  have hdrop : ("http://".data ++ c :: t).drop 7 = c :: t := by
    rw [show (7 : Nat) = "http://".data.length from rfl, List.drop_left]
  rw [htake, hdrop]
  rw [if_pos (show lowerChars "http://".data = "http://".data from rfl)]
  dsimp only
  rw [takeWhile_eq_self_of_all (fun x hx => by simp [hall x hx])]
  rw [if_neg (by simp)]

/-- The step-by-step identity run of _normalize_candidate on a URL whose
characters make every stage a fixed point. -/
theorem normalizeCandidate_id_aux (baseUrl url : Chars) (clast : Char)
    (hg : url.getLast? = some clast)
    (hhead : url.head? = some 'h')
    (hne : ¬ url = [])
    (hall : ∀ x ∈ url, ¬ x = '&' ∧ ¬ x = '\\' ∧ normalizedUrlDisallowed x = false)
    (hl1 : stripSetChars.contains clast = false)
    (hl2 : ¬ clast = '.') (hl3 : ¬ clast = ',') (hl4 : ¬ clast = ';')
    (hscheme : ¬ (splitScheme url).1 = [])
    (hhttp : (urlparse url).scheme = "http".data ∨ (urlparse url).scheme = "https".data)
    (hnet : ¬ (urlparse url).netloc = [])
    (hround : urlunparse (urlparse url) = url)
    (htake2 : ¬ url.take 2 = "//".data)
    (hmatch : normalizedUrlMatch url = some url) :
    normalizeCandidate url baseUrl = some url := by
  have hspace : isPySpace clast = false := by
    have h := (hall clast (mem_of_getLast?_eq hg)).2.2
    simp [normalizedUrlDisallowed] at h
    simpa using h.1
  have hstrip : pyStrip url = url := by
    unfold pyStrip lstripBy
    rw [dropWhile_eq_self_of_head hhead (by decide)]
    exact rstripBy_eq_self_of_last hg hspace
  have hcont : url.contains '&' = false := by
    simpa using fun hm => (hall '&' hm).1 rfl
  have hunesc : htmlUnescape url = url := by
    unfold htmlUnescape
    rw [hcont]
    simp
  have hbs : ∀ x ∈ url, ¬ x = '\\' := fun x hx => (hall x hx).2.1
  have hamp : ∀ x ∈ url, ¬ x = '&' := fun x hx => (hall x hx).1
  have hr1 : replaceSub "\\/".data "/".data url = url := replaceSub_eq_self hbs
  have hr2 : replaceSub "\\u002F".data "/".data url = url := replaceSub_eq_self hbs
  have hr3 : replaceSub "\\u0026".data "&".data url = url := replaceSub_eq_self hbs
  have hr4 : replaceSub "&amp;".data "&".data url = url := replaceSub_eq_self hamp
  have hsetlast : ("\"' ),".data.contains clast) = false := hl1
  have hstripset : pyStripSet "\"' ),".data url = url := by
    unfold pyStripSet lstripBy
    rw [dropWhile_eq_self_of_head hhead (by decide)]
    exact rstripBy_eq_self_of_last hg hsetlast
  have hjoin : urljoin baseUrl url = url := urljoin_abs baseUrl url hscheme hhttp hnet hround
  have hrlast : (".,;".data.contains clast) = false := by
    show (['.', ',', ';'].contains clast) = false
    simp [hl2, hl3, hl4]
  have hrstrip : pyRstripSet ".,;".data url = url := by
    unfold pyRstripSet
    exact rstripBy_eq_self_of_last hg hrlast
  have hvalid : isValidHttpUrl url = true := isValidHttpUrl_of url hhttp hnet
  unfold normalizeCandidate
  dsimp only
  rw [hstrip, hunesc, if_neg hne, hr1, hr2, hr3, hr4, hstripset, if_neg htake2, hjoin,
    hrstrip, hmatch]
  dsimp only
  rw [if_pos hvalid]

set_option maxRecDepth 40000 in
/-- C8, counterexample: an absolute https URL meeting every canonicity
condition the claim lists (valid scheme and host, no escapes, entities,
surrounding punctuation, whitespace, quotes, angle brackets or trailing
dot, comma, semicolon) is still changed by the normalizer: the URL-shape
regex truncates it at the embedded closing parenthesis. -/
theorem C8_counterexample :
    normalizeCandidate "https://example.com/a)b".data "https://www.pinterest.com/pin/1/".data
      = some "https://example.com/a".data ∧
    ¬ "https://example.com/a".data = "https://example.com/a)b".data := by decide

/-- C8, amended: the normalizer is the identity on every lowercase-scheme
absolute http(s) URL with a host that avoids ampersands, backslashes and
the regex's disallowed class everywhere, does not end in a character of
the strip sets, and survives a urlparse-urlunparse round trip (the
canonicalAbsoluteUrl predicate, which also rules out the netlocs CPython's
urlsplit rejects with Invalid IPv6 URL); the base URL must equally be one
on which the uncaught urljoin parse cannot raise. -/
theorem C8_amended (baseUrl url : Chars) (h : canonicalAbsoluteUrl url = true)
    (_hbase : invalidIpv6Url baseUrl = false) :
    normalizeCandidate url baseUrl = some url := by
  unfold canonicalAbsoluteUrl at h
  simp only [Bool.and_eq_true, Bool.or_eq_true, Bool.not_eq_true'] at h
  obtain ⟨⟨⟨⟨⟨hpre, hnetE⟩, _⟩, hallB⟩, hlastB⟩, hroundB⟩ := h
  have hround : urlunparse (urlparse url) = url := of_decide_eq_true hroundB
  have hall : ∀ x ∈ url, ¬ x = '&' ∧ ¬ x = '\\' ∧ normalizedUrlDisallowed x = false := by
    intro x hx
    have hx2 := (List.all_eq_true.mp hallB) x hx
    simp only [Bool.not_eq_true', Bool.or_eq_false_iff, beq_eq_false_iff_ne, ne_eq] at hx2
    exact ⟨hx2.1.1, hx2.1.2, hx2.2⟩
  have hnet : ¬ (urlparse url).netloc = [] := by
    intro hh
    rw [hh] at hnetE
    exact absurd hnetE (by decide)
  have hc8 : ∀ x ∈ url, normalizedUrlDisallowed x = false := fun x hx => (hall x hx).2.2
  rcases hgl : url.getLast? with _ | clast
  · rw [hgl] at hlastB
    dsimp only at hlastB
    exact Bool.noConfusion hlastB
  · rw [hgl] at hlastB
    dsimp only at hlastB
    simp only [Bool.not_eq_true', Bool.or_eq_false_iff, beq_eq_false_iff_ne, ne_eq] at hlastB
    obtain ⟨⟨⟨hl1, hl2⟩, hl3⟩, hl4⟩ := hlastB
    rcases hpre with hp | hp
    · obtain ⟨t, ht⟩ := List.isPrefixOf_iff_prefix.mp hp
      cases t with
      | nil =>
        exfalso
        apply hnet
        rw [← ht, List.append_nil]
        decide
      | cons c t' =>
        subst ht
        exact normalizeCandidate_id_aux baseUrl _ clast hgl rfl (by simp) hall
          hl1 hl2 hl3 hl4
          (by rw [splitScheme_http]; simp)
          (Or.inl (urlparse_scheme_http _)) hnet hround
          (by simp)
          (normalizedUrlMatch_http c t' (fun x hx => hc8 x (List.mem_append_right _ hx)))
    · obtain ⟨t, ht⟩ := List.isPrefixOf_iff_prefix.mp hp
      cases t with
      | nil =>
        exfalso
        apply hnet
        rw [← ht, List.append_nil]
        decide
      | cons c t' =>
        subst ht
        exact normalizeCandidate_id_aux baseUrl _ clast hgl rfl (by simp) hall
          hl1 hl2 hl3 hl4
          (by rw [splitScheme_https]; simp)
          (Or.inr (urlparse_scheme_https _)) hnet hround
          (by simp)
          (normalizedUrlMatch_https c t' (fun x hx => hc8 x (List.mem_append_right _ hx)))

set_option maxRecDepth 40000 in
/-- C8, witness for the amended theorem: a concrete pin URL satisfies the
canonicity predicate, a concrete base passes the bracket guard, and the
URL is returned unchanged. -/
theorem C8_witness :
    canonicalAbsoluteUrl "https://www.pinterest.com/pin/123/".data = true ∧
    invalidIpv6Url "https://www.pinterest.com/".data = false ∧
    normalizeCandidate "https://www.pinterest.com/pin/123/".data
        "https://www.pinterest.com/".data
      = some "https://www.pinterest.com/pin/123/".data :=
  ⟨by decide, by decide, C8_amended "https://www.pinterest.com/".data
      "https://www.pinterest.com/pin/123/".data (by decide) (by decide)⟩

end PinSpec
